import Mathlib

/-!
Shallow embedding of the candidate-data extraction and normalization pipeline
of the Intelligent-Chat-Interface repository (src/app.py,
src/backend/resume_parser.py, src/backend/linkedin_scraper.py), together with
theorems settling the specification claims about it.

Conventions of the embedding:
* Python strings are Lean `String`s; most character-level work is done on
  `String.data : List Char`.  The texts handled by the program are ASCII, and
  the character-class helpers below implement the ASCII meaning of the Python
  constructs they transcribe.
* Python `re` patterns are transcribed either as bespoke scanning functions
  (for the handful of patterns whose exact submatch behaviour matters to a
  claim) or as terms of a small backtracking combinator library (`RM` below)
  that mirrors leftmost / priority-order regex semantics.
* Machine integers do not occur: Python integers are unbounded, and are
  modelled as `Int` / `Nat`.
* Fallible external collaborators (the spaCy tagger) are modelled as explicit
  `Option`-valued parameters.
-/

set_option maxRecDepth 4000

/-! ### Basic Python string helpers -/

/-- ASCII whitespace recognised by Python `str.strip` and by `\s` in the
regular expressions of this code base (which only ever meets ASCII text):
space, tab, newline, carriage return, vertical tab, form feed. -/
def isPyWs (c : Char) : Bool :=
  c == ' ' || c == '\t' || c == '\n' || c == '\r' || c == '\x0b' || c == '\x0c'

/-- Leading-whitespace removal, the first half of Python `str.strip`. -/
def dropLeadWs (l : List Char) : List Char := l.dropWhile isPyWs

/-- Trailing-whitespace removal, the second half of Python `str.strip`. -/
def dropTrailWs : List Char → List Char
  | [] => []
  | c :: r =>
    let r' := dropTrailWs r
    if r'.isEmpty && isPyWs c then [] else c :: r'

/-- Python `str.strip()` on the character list. -/
def stripChars (l : List Char) : List Char := dropTrailWs (dropLeadWs l)

/-- Python `str.strip()`. -/
def pyStrip (s : String) : String := ⟨stripChars s.data⟩

/-- Python `str.lower()` (ASCII). -/
def lowerChars (l : List Char) : List Char := l.map Char.toLower

/-- Python `str.lower()` (ASCII). -/
def pyLower (s : String) : String := ⟨lowerChars s.data⟩

/-- Python `str.upper()` (ASCII) on the character list. -/
def upperChars (l : List Char) : List Char := l.map Char.toUpper

/-- Python `str.upper()` (ASCII). -/
def pyUpper (s : String) : String := ⟨upperChars s.data⟩

/-- Helper for `pyTitle`: the boolean records whether the previous character
was alphabetic (Python: cased). -/
def titleAux : Bool → List Char → List Char
  | _, [] => []
  | prevAlpha, c :: r =>
    if c.isAlpha then
      (if prevAlpha then c.toLower else c.toUpper) :: titleAux true r
    else
      c :: titleAux false r

/-- Python `str.title()` (ASCII): uppercase every letter that follows a
non-letter, lowercase every other letter. -/
def pyTitle (s : String) : String := ⟨titleAux false s.data⟩

/-- Helper for `splitOnChar`; the accumulator holds the current piece
reversed. -/
def splitOnCharAux (sep : Char) : List Char → List Char → List (List Char)
  | acc, [] => [acc.reverse]
  | acc, c :: r =>
    if c == sep then acc.reverse :: splitOnCharAux sep [] r
    else splitOnCharAux sep (c :: acc) r

/-- Python `s.split(sep)` for a one-character separator: keeps empty pieces,
and on the empty string returns `[""]`. -/
def splitOnChar (sep : Char) (l : List Char) : List (List Char) :=
  splitOnCharAux sep [] l

/-- Helper for `wordsWs`: the accumulator holds the current word reversed;
whitespace flushes it (empty words are not emitted). -/
def wordsWsAux : List Char → List Char → List (List Char)
  | acc, [] => if acc.isEmpty then [] else [acc.reverse]
  | acc, c :: r =>
    if isPyWs c then
      (if acc.isEmpty then wordsWsAux [] r else acc.reverse :: wordsWsAux [] r)
    else wordsWsAux (c :: acc) r

/-- Python `s.split()` (no argument): maximal runs of non-whitespace, empty
pieces discarded. -/
def wordsWs (l : List Char) : List (List Char) := wordsWsAux [] l

/-- Does the literal `pat` occur in `t` starting at index `p`
(`ci` selects ASCII case-insensitive comparison)? -/
def litAt (pat : List Char) (t : List Char) (p : Nat) (ci : Bool) : Bool :=
  match pat with
  | [] => true
  | c :: pr =>
    match t.get? p with
    | some d => (if ci then d.toLower == c.toLower else d == c) && litAt pr t (p + 1) ci
    | none => false

/-- Python `needle in hay` on strings (substring containment). -/
def containsSub (needle hay : List Char) : Bool :=
  (List.range (hay.length + 1)).any (fun p => litAt needle hay p false)

/-- Scan positions `start, start+1, …` (at most `fuel` of them) and return the
first `some` value of `f`.  This is the generic "leftmost match" driver used
to transcribe `re.search`-style scans. -/
def scanPos {α : Type} (f : Nat → Option α) (start : Nat) : Nat → Option α
  | 0 => none
  | Nat.succ k =>
    match f start with
    | some a => some a
    | none => scanPos f (start + 1) k

/-! ### `ResumeParser._calculate_experience_years` (src/backend/resume_parser.py)

The helper `parse_date_fragment` recognises a three-letter month abbreviation
and a 4-digit year (`19xx`/`20xx`) anywhere in the fragment; the date ranges
are split on `-` or `–` with surrounding whitespace (`re.split(r"\s*[-–]\s*", dr)`). -/

/-- Dash characters of the range separator class `[-–]`. -/
def isDashChar (c : Char) : Bool := c == '-' || c == '–'

/-- Helper for `pySplitDash`.  A match of `\s*[-–]\s*` swallows the whitespace
run adjacent to each dash on both sides, so on meeting a dash we strip the
trailing whitespace of the piece built so far and skip the following run
(the boolean is true exactly while skipping that run). -/
def pySplitDashAux : Bool → List Char → List Char → List (List Char)
  | _, acc, [] => [acc.reverse]
  | skipping, acc, c :: r =>
    if skipping && isPyWs c then pySplitDashAux true acc r
    else if isDashChar c then dropTrailWs acc.reverse :: pySplitDashAux true [] r
    else pySplitDashAux false (c :: acc) r

/-- Python `re.split(r"\s*[-–]\s*", s)`. -/
def pySplitDash (s : String) : List String :=
  (pySplitDashAux false [] s.data).map (fun l => ⟨l⟩)

/-- A `(year, month)` pair: the `datetime(year, month, 1)` values the tenure
computation builds (the day is always 1, so it is omitted). -/
structure YM where
  year : Nat
  month : Nat
deriving DecidableEq, Repr

/-- The month abbreviations, in the order of the alternation
`(jan|feb|mar|apr|may|jun|jul|aug|sep|oct|nov|dec)`. -/
def monthAbbrevs : List (List Char) :=
  [['j', 'a', 'n'], ['f', 'e', 'b'], ['m', 'a', 'r'], ['a', 'p', 'r'],
   ['m', 'a', 'y'], ['j', 'u', 'n'], ['j', 'u', 'l'], ['a', 'u', 'g'],
   ['s', 'e', 'p'], ['o', 'c', 't'], ['n', 'o', 'v'], ['d', 'e', 'c']]

/-- Try an alternation of abbreviations at one position, in order; a hit on
the abbreviation numbered `k` yields `k` (the `month_map` numbering starts
at 1). -/
def monthAltAt (abbrevs : List (List Char)) (k : Nat) (t : List Char) (p : Nat) : Option Nat :=
  match abbrevs with
  | [] => none
  | a :: rest => if litAt a t p false then some k else monthAltAt rest (k + 1) t p

/-- Month-abbreviation alternation tried at one position: branch order is
alternation order (at a fixed position at most one three-letter abbreviation
can match anyway). -/
def monthAtPos (t : List Char) (p : Nat) : Option Nat := monthAltAt monthAbbrevs 1 t p

/-- `re.search(r"(jan|…|dec)", s)` mapped through `month_map`: leftmost
occurrence of a month abbreviation. -/
def monthSearch (t : List Char) : Option Nat :=
  scanPos (monthAtPos t) 0 (t.length + 1)

/-- One position of `re.search(r"(19\d{2}|20\d{2})", s)`: a 4-character window
starting with `19` or `20` followed by two digits, decoded as a number. -/
def yearAtPos (t : List Char) (p : Nat) : Option Nat :=
  match t.get? p, t.get? (p + 1), t.get? (p + 2), t.get? (p + 3) with
  | some a, some b, some c, some d =>
    if ((a == '1' && b == '9') || (a == '2' && b == '0')) && c.isDigit && d.isDigit then
      some (1000 * (a.toNat - 48) + 100 * (b.toNat - 48) + 10 * (c.toNat - 48) + (d.toNat - 48))
    else none
  | _, _, _, _ => none

/-- Leftmost 4-digit year `19xx`/`20xx` in the fragment. -/
def yearSearch (t : List Char) : Option Nat :=
  scanPos (yearAtPos t) 0 (t.length + 1)

/-- `parse_date_fragment` of `_calculate_experience_years`: strip and lowercase
the fragment, return `none` when empty, otherwise take the leftmost month
abbreviation (default month 1) and the leftmost 4-digit year; without a year
the fragment does not parse. -/
def parse_date_fragment (s : String) : Option YM :=
  let t := lowerChars (stripChars s.data)
  if t.isEmpty then none
  else
    let month := (monthSearch t).getD 1
    match yearSearch t with
    | some y => some ⟨y, month⟩
    | none => none

/-- `datetime` comparison for day-1 dates: lexicographic on (year, month).
When the end date defaults to the wall clock the Python comparison also sees a
day and a time of day, but in the only case where they could matter (equal
year and month) the computed month count is 0 and the `months > 0` guard
discards the entry either way, so modelling the clock at month granularity is
faithful. -/
def ymLt (a b : YM) : Bool :=
  a.year < b.year || (a.year == b.year && a.month < b.month)

/-- A parsed work-experience entry (`{title, company, date_range}`). -/
structure ExperienceEntry where
  title : String
  company : String
  date_range : String
deriving DecidableEq, Repr

/-- The contribution of one experience entry to `total_months` in
`_calculate_experience_years`: split the date range on dashes, parse both
ends (a missing or unparseable end defaults to `now`), and if the end is
after the start add `(end.year - start.year) * 12 + (end.month - start.month)`
months, provided that count is positive. -/
def expEntryMonths (now : YM) (exp : ExperienceEntry) : Int :=
  if exp.date_range ≠ "" then
    let parts := pySplitDash exp.date_range
    let start := parse_date_fragment (parts.headD "")
    let endo : Option YM :=
      if parts.length > 1 then parse_date_fragment (parts.getD 1 "") else none
    let ed := endo.getD now
    match start with
    | some st =>
      if ymLt st ed then
        let months : Int := ((ed.year : Int) - st.year) * 12 + ((ed.month : Int) - st.month)
        if months > 0 then months else 0
      else 0
    | none => 0
  else 0

/-- `ResumeParser._calculate_experience_years`, with the wall clock
(`datetime.utcnow()`) made an explicit parameter: total the per-entry month
counts, divide by 12 (Python `//`, floor division), clamp to [0, 60].  An
empty experience list returns 0 immediately. -/
def calculate_experience_years (now : YM) (experience : List ExperienceEntry) : Int :=
  if experience.isEmpty then 0
  else
    let total := experience.foldl (fun tm exp => tm + expEntryMonths now exp) 0
    let years := Int.fdiv total 12
    max 0 (min 60 years)

/-- Spec-side per-entry month count, following the claim's words: both ends
parsed from the dash-split range (an unparseable or missing end defaulting to
`now`); entries with end > start contribute
`(end.year - start.year) * 12 + (end.month - start.month)` months, all others
contribute nothing.  (No positivity guard: the claim does not mention one.) -/
def expMonthsSpec (now : YM) (e : ExperienceEntry) : Int :=
  let parts := pySplitDash e.date_range
  match parse_date_fragment (parts.headD "") with
  | none => 0
  | some st =>
    let ed := (if parts.length > 1 then parse_date_fragment (parts.getD 1 "") else none).getD now
    if ymLt st ed then ((ed.year : Int) - st.year) * 12 + ((ed.month : Int) - st.month)
    else 0

/-- Spec-side tenure, following the claim's words: sum the per-entry months,
divide the total by 12 with integer division, clamp into [0, 60]. -/
def experienceYearsSpec (now : YM) (exps : List ExperienceEntry) : Int :=
  max 0 (min 60 (Int.fdiv ((exps.map (expMonthsSpec now)).sum) 12))

/-! ### A model of loosely-typed Python values

The app-level validators accept arbitrary Python values (`Any`).  `PyVal`
covers the value shapes those functions inspect: strings, ints, bools, floats
(a finite float is abstracted by its truncation toward zero, which is exactly
what `int()` yields on it; `pfloatNaN` stands for the non-finite floats, on
which `int()` raises), `None`, lists, dicts and opaque objects. -/

inductive PyVal where
  | pstr (s : String)
  | pint (n : Int)
  | pbool (b : Bool)
  | pfloatFin (trunc : Int)
  | pfloatNaN
  | pnone
  | plist (xs : List PyVal)
  | pdict (entries : List (String × PyVal))
  | pobj

/-- `repr` of the scalar Python values; containers and objects are rendered
with the right delimiters but without recursing into elements (no theorem in
this development depends on the text `str()` produces for containers, and the
`str()` of a plain object embeds an unmodellable memory address anyway). -/
def pyRepr : PyVal → String
  | .pstr s => "'" ++ s ++ "'"
  | .pint n => toString n
  | .pbool b => if b then "True" else "False"
  | .pfloatFin t => toString t ++ ".0"
  | .pfloatNaN => "nan"
  | .pnone => "None"
  | .plist _ => "[...]"
  | .pdict _ => "\x7b...\x7d"
  | .pobj => "<object>"

/-- Python `str()` of a value. -/
def pyStr : PyVal → String
  | .pstr s => s
  | .pint n => toString n
  | .pbool b => if b then "True" else "False"
  | .pfloatFin t => toString t ++ ".0"
  | .pfloatNaN => "nan"
  | .pnone => "None"
  | v => pyRepr v

/-! ### `_validate_email` (src/app.py)

The optional `email_validator` dependency is imported inside a
`try/except`; the deterministic in-repo logic is the regex fallback, which is
what is transcribed here (the library branch is an external collaborator). -/

/-- The class `[A-Za-z0-9._%+-]` of the local part. -/
def emailLocalChar (c : Char) : Bool :=
  c.isAlpha || c.isDigit || c == '.' || c == '_' || c == '%' || c == '+' || c == '-'

/-- The class `[A-Za-z0-9.-]` of the domain part. -/
def emailDomChar (c : Char) : Bool :=
  c.isAlpha || c.isDigit || c == '.' || c == '-'

/-- `re.match(r"^[A-Za-z0-9._%+-]+@[A-Za-z0-9.-]+\.[A-Za-z]{2,}$", s)` as a
whole-string decomposition: the backtracking engine succeeds exactly when the
string splits as local `@` domain `.` tld with a nonempty all-local-class
local part, a nonempty all-domain-class domain part, and an all-letter tld of
length at least 2.  (The input is pre-stripped, so `$` is plain end of
string.) -/
def emailRegexMatch (s : String) : Bool :=
  let l := s.data
  (List.range (l.length + 1)).any (fun i =>
    l.get? i == some '@'
    && decide (0 < i) && ((l.take i).all emailLocalChar)
    && (let r := l.drop (i + 1)
        (List.range (r.length + 1)).any (fun j =>
          r.get? j == some '.'
          && decide (0 < j) && ((r.take j).all emailDomChar)
          && (let t := r.drop (j + 1)
              decide (2 ≤ t.length) && t.all Char.isAlpha))))

/-- `_validate_email`: non-strings give `""`; a string is stripped and kept
only if it matches the email regex. -/
def validate_email (email : PyVal) : String :=
  match email with
  | .pstr s =>
    let t := pyStrip s
    if emailRegexMatch t then t else ""
  | _ => ""

/-! ### `_normalize_phone` (src/app.py)

The optional `phonenumbers` dependency is likewise behind a `try/except`
import; the in-repo fallback below (`re.sub` + digit count) is transcribed. -/

/-- The class kept by `re.sub(r"[^0-9+]", "", phone)`. -/
def phoneKeepChar (c : Char) : Bool := c.isDigit || c == '+'

/-- The string path of `_normalize_phone`: strip, drop every character that
is not a digit or `+` (`re.sub(r"[^0-9+]", "", phone)`), remove all `+` when
more than one remains, and return the result only when it has at least 7
digits. -/
def normalize_phone_str (s0 : String) : String :=
  let s := pyStrip s0
  let digits := s.data.filter phoneKeepChar
  let digits := if digits.count '+' > 1 then digits.filter (fun c => c != '+') else digits
  let just := digits.filter Char.isDigit
  if just.length ≥ 7 then (⟨digits⟩ : String) else ""

/-- `_normalize_phone`: non-strings are coerced with `str(phone)` (`""` for
`None`), then the string path runs. -/
def normalize_phone (phone : PyVal) : String :=
  normalize_phone_str (match phone with
    | .pstr s => s
    | .pnone => ""
    | v => pyStr v)

/-! ### `_normalize_skills` (src/app.py) and
`ResumeParser._normalize_skills` (src/backend/resume_parser.py) -/

/-- The shared stop-word set. -/
def skillStopwords : List String :=
  ["and", "or", "the", "a", "an", "service", "university", "hands", "years",
   "experience", "skill", "skills"]

/-- The shared preserve-uppercase set. -/
def preserveUpper : List String :=
  ["AWS", "SQL", "NLP", "API", "CI/CD", "HTML", "CSS"]

/-- `re.fullmatch(r"[0-9.]+", token)`. -/
def isNumericToken (l : List Char) : Bool :=
  !l.isEmpty && l.all (fun c => c.isDigit || c == '.')

/-- The token loop of the app-level `_normalize_skills`, with the `seen` set
and the output accumulator made explicit (the accumulator is reversed at the
end, matching the `append` order). -/
def appSkillsLoop : List String → List String → List String → List String
  | [], _, acc => acc.reverse
  | part :: rest, seen, acc =>
    let token := pyStrip part
    if token = "" then appSkillsLoop rest seen acc
    else if isNumericToken token.data then appSkillsLoop rest seen acc
    else if skillStopwords.contains (pyLower (pyStrip token)) then appSkillsLoop rest seen acc
    else
      let token_cased := if preserveUpper.contains (pyUpper token) then token else pyTitle token
      if seen.contains (pyLower token_cased) then appSkillsLoop rest seen acc
      else appSkillsLoop rest (pyLower token_cased :: seen) (token_cased :: acc)

/-- Generalisation of `splitOnCharAux` to a set of separator characters. -/
def splitByPredAux (sep : Char → Bool) : List Char → List Char → List (List Char)
  | acc, [] => [acc.reverse]
  | acc, c :: r =>
    if sep c then acc.reverse :: splitByPredAux sep [] r
    else splitByPredAux sep (c :: acc) r

/-- `re.split(r"[;,]", s)`-style split at every separator character. -/
def splitByPred (sep : Char → Bool) (l : List Char) : List (List Char) :=
  splitByPredAux sep [] l

/-- The app-level `_normalize_skills`: a string input is split on `;`/`,`, a
list input is taken as is (non-string elements are coerced with `str`, which
the Python loop does per element), anything else contributes no tokens. -/
def app_normalize_skills (skills : PyVal) : List String :=
  let parts : List String :=
    match skills with
    | .pstr s => (splitByPred (fun c => c == ';' || c == ',') s.data).map (fun l => (⟨l⟩ : String))
    | .plist xs => xs.map (fun v => match v with | .pstr s => s | w => pyStr w)
    | _ => []
  appSkillsLoop parts [] []

/-- The alias table of the parser-level `_normalize_skills`. -/
def skillAliases : List (String × String) := [("js", "JavaScript"), ("py", "Python")]

/-- The token loop of `ResumeParser._normalize_skills`: trims, applies the
alias table, drops stop-words, cases the token, and deduplicates — but it has
no purely-numeric filter. -/
def parserSkillsLoop : List String → List String → List String → List String
  | [], _, acc => acc.reverse
  | item :: rest, seen, acc =>
    let token := pyStrip item
    if token = "" then parserSkillsLoop rest seen acc
    else
      let low := pyLower token
      let token := match skillAliases.find? (fun p => p.1 == low) with
        | some p => p.2
        | none => token
      let low := pyLower token
      if skillStopwords.contains low then parserSkillsLoop rest seen acc
      else
        let token_cased := if preserveUpper.contains (pyUpper token) then token else pyTitle token
        let key := pyLower token_cased
        if seen.contains key then parserSkillsLoop rest seen acc
        else parserSkillsLoop rest (key :: seen) (token_cased :: acc)

/-- `ResumeParser._normalize_skills` (typed `List[str]` in the source;
`(item or "").strip()` is `pyStrip item` on actual strings). -/
def parser_normalize_skills (skills : List String) : List String :=
  parserSkillsLoop skills [] []

/-- The claim's description of `normalizeSkills` as a pipeline: trim every
token; drop empty, purely numeric and stop-word tokens; title-case each kept
token unless its upper-cased form is in the preserve-uppercase set;
deduplicate case-insensitively keeping the first occurrence in encounter
order. -/
def claimedSkillKeep (t : String) : Bool :=
  t != "" && !(isNumericToken t.data) && !(skillStopwords.contains (pyLower t))

/-- Casing rule of the claim: title-case unless the upper-cased form is in
the preserve-uppercase set. -/
def claimedSkillCase (t : String) : String :=
  if preserveUpper.contains (pyUpper t) then t else pyTitle t

/-- Case-insensitive first-occurrence deduplication, written as a left fold
that appends a token only when its lowercase key is new. -/
def dedupCaseInsensitive (ys : List String) : List String :=
  ys.foldl (fun acc y => if (acc.map pyLower).contains (pyLower y) then acc else acc ++ [y]) []

/-- The claim's `normalizeSkills` on an input list of tokens. -/
def normalize_skills_claimed (tokens : List String) : List String :=
  dedupCaseInsensitive (((tokens.map pyStrip).filter claimedSkillKeep).map claimedSkillCase)

/-! ### `_clamp_experience_years` (src/app.py) -/

/-- Numeric value of an ASCII digit. -/
def digitVal (c : Char) : Nat := c.toNat - 48

/-- Decimal decoding of a digit run. -/
def digitsToNat (l : List Char) : Nat := l.foldl (fun a c => 10 * a + digitVal c) 0

/-- One position of `re.search(r"-?\d+", s)`: an optional minus immediately
followed by a greedy digit run. -/
def firstSignedIntAt (l : List Char) (p : Nat) : Option Int :=
  match l.get? p with
  | none => none
  | some c =>
    if c.isDigit then
      some (Int.ofNat (digitsToNat ((l.drop p).takeWhile Char.isDigit)))
    else if c == '-' then
      match l.get? (p + 1) with
      | some d =>
        if d.isDigit then
          some (-(Int.ofNat (digitsToNat ((l.drop (p + 1)).takeWhile Char.isDigit))))
        else none
      | none => none
    else none

/-- `re.search(r"-?\d+", s)` decoded by `int(...)`: the first signed integer
substring. -/
def firstSignedInt (s : String) : Option Int :=
  scanPos (firstSignedIntAt s.data) 0 (s.data.length + 1)

/-- `_clamp_experience_years`: strings yield their first signed integer
substring (0 if none), other values go through `int()` (0 whenever that
raises), and the result is clamped into `[min_years, max_years]`.  All call
sites pass the defaults 0 and 60. -/
def clamp_experience_years (value : PyVal) (min_years max_years : Int) : Int :=
  let v : Int :=
    match value with
    | .pstr s => match firstSignedInt s with | some n => n | none => 0
    | .pint n => n
    | .pbool b => if b then 1 else 0
    | .pfloatFin t => t
    | .pfloatNaN => 0
    | .pnone => 0
    | .plist _ => 0
    | .pdict _ => 0
    | .pobj => 0
  max min_years (min max_years v)

/-! ### `ResumeParser._find_section` (src/backend/resume_parser.py)

The source lowercases the whole text, then for each section name runs
`re.search(rf"{name}[:\s]*\n(.*?)(?=\n[A-Z][A-Za-z\s]*:|$)", text_lower,
re.IGNORECASE | re.DOTALL)` and returns `match.group(1).strip()` for the
first name that matches.  The transcription below spells out the semantics of
that pattern:
* the literal name matches case-insensitively (text and name are lowered);
* `[:\s]*\n` with a greedy star: the match succeeds iff the colon/whitespace
  run after the name contains a newline, and the group starts after the last
  newline of that run;
* the lazy `(.*?)` makes the group end at the earliest position where the
  lookahead succeeds; the lookahead always succeeds at end of string (`$`),
  which under the default non-MULTILINE mode also matches just before a
  terminal newline;
* in the first lookahead alternative, `[A-Z]` under `IGNORECASE` is any
  letter, and `[A-Za-z\s]*` may span newlines (`\s` includes `\n`), so the
  "heading line" it detects is neither capitalised nor confined to one
  line. -/

/-- The lookahead class `[A-Za-z\s]`. -/
def headClassChar (c : Char) : Bool := c.isAlpha || isPyWs c

/-- The tail of the first lookahead alternative: from index `i`, letters and
whitespace until a `:` is found (`[A-Za-z\s]*:` with backtracking reduces to
this scan because `:` is not in the class). -/
def scanColonFrom (t : List Char) : Nat → Nat → Bool
  | _, 0 => false
  | i, Nat.succ k =>
    match t.get? i with
    | none => false
    | some c =>
      if c == ':' then true
      else if headClassChar c then scanColonFrom t (i + 1) k
      else false

/-- Does the lookahead `(?=\n[A-Z][A-Za-z\s]*:|$)` succeed at position `q`
(in a lowered text, under `IGNORECASE`)?  `$` matches at end of string or
just before a terminal newline. -/
def sectionBoundaryAt (t : List Char) (q : Nat) : Bool :=
  (q == t.length)
  || (q + 1 == t.length && t.get? q == some '\n')
  || (t.get? q == some '\n'
      && (match t.get? (q + 1) with
          | some c => c.isAlpha && scanColonFrom t (q + 2) (t.length + 1)
          | none => false))

/-- The colon/whitespace run `[:\s]*` after the name, tracking the index of
its last newline: `[:\s]*\n` (greedy, with backtracking) matches exactly when
the run contains a newline, consuming up to the last one. -/
def colonWsRunLastNl (t : List Char) : Nat → Nat → Option Nat → Option Nat
  | _, 0, best => best
  | j, Nat.succ k, best =>
    match t.get? j with
    | some c =>
      if c == ':' || isPyWs c then
        colonWsRunLastNl t (j + 1) k (if c == '\n' then some j else best)
      else best
    | none => best

/-- Does the heading part `name[:\s]*\n` match at position `i` of the lowered
text `t`?  On success, returns the start of the capture group (the index
right after the last newline of the run). -/
def headingMatchAt (t : List Char) (name : List Char) (i : Nat) : Option Nat :=
  if litAt name t i false then
    match colonWsRunLastNl t (i + name.length) (t.length + 1) none with
    | some p => some (p + 1)
    | none => none
  else none

/-- `re.search` of the section pattern for one name over the lowered text:
leftmost heading match, then the group runs to the earliest boundary. -/
def find_section_one (t : List Char) (name : List Char) : Option (List Char) :=
  match scanPos (headingMatchAt t name) 0 (t.length + 1) with
  | none => none
  | some bodyStart =>
    match scanPos (fun q => if sectionBoundaryAt t q then some q else none)
        bodyStart (t.length + 1 - bodyStart) with
    | some q => some ((t.drop bodyStart).take (q - bodyStart))
    | none => none

/-- The `for section_name in section_names` loop: first name whose pattern
matches wins; its group is stripped and returned.  Note the body text comes
from the lowered copy of the document. -/
def findSectionLoop (tl : List Char) : List String → String
  | [] => ""
  | n :: rest =>
    match find_section_one tl (lowerChars n.data) with
    | some body => (⟨stripChars body⟩ : String)
    | none => findSectionLoop tl rest

/-- `ResumeParser._find_section`.  Section names are modelled as literal
strings (every call site passes plain lowercase words; the source embeds them
verbatim in the pattern). -/
def find_section (text : String) (section_names : List String) : String :=
  findSectionLoop (lowerChars text.data) section_names

/-- One name of the amended description, phrased with explicit minimal-index
selection: the first (leftmost) heading match, the body running to the
earliest boundary position or end of text. -/
def find_section_words_one (t : List Char) (name : List Char) : Option (List Char) :=
  match (List.range (t.length + 1)).findSome? (headingMatchAt t name) with
  | none => none
  | some bodyStart =>
    match (List.range' bodyStart (t.length + 1 - bodyStart)).find?
        (fun q => sectionBoundaryAt t q) with
    | some q => some ((t.drop bodyStart).take (q - bodyStart))
    | none => none

/-- The amended description of `_find_section`: scan the names in order and
return the stripped body of the first that matches, `""` if none does. -/
def find_section_words (text : String) (section_names : List String) : String :=
  let tl := lowerChars text.data
  (section_names.findSome? (fun n =>
    (find_section_words_one tl (lowerChars n.data)).map
      (fun b => (⟨stripChars b⟩ : String)))).getD ""

/-- A line "that looks like a new section heading" in the claim's words: a
capitalized line ending with `:`. -/
def isCapHeadingLine (l : List Char) : Bool :=
  match l with
  | [] => false
  | c :: _ =>
    c.isUpper && (match l.getLast? with | some d => d == ':' | none => false)

/-- A line matching a heading name "followed by a colon/newline" in the
claim's words (case-insensitive). -/
def lineMatchesHeading (line : List Char) (name : String) : Bool :=
  let ll := lowerChars line
  let nl := lowerChars name.data
  ll == nl ++ [':'] || ll == nl

/-- `findSection` as the claim states it: the body of the first matched
heading line, up to but not including the next capitalized line ending with
`:`, or up to end of text; `""` when no heading matches. -/
def find_section_claimed (text : String) (names : List String) : String :=
  let lines := splitOnChar '\n' text.data
  match (List.range lines.length).find? (fun i =>
      match lines.get? i with
      | some line => names.any (fun n => lineMatchesHeading line n)
      | none => false) with
  | none => ""
  | some h =>
    let body := (lines.drop (h + 1)).takeWhile (fun line => !(isCapHeadingLine line))
    String.intercalate "\n" (body.map (fun l => (⟨l⟩ : String)))

/-! ### A small backtracking regex-combinator library

The remaining extractors of `ResumeParser` run batteries of `re` patterns.
Each pattern is transcribed as a term of `RM`: a matcher takes the full text
and a start position and returns every possible `(value, end-position)`
outcome in the engine's priority order — the head of the list is the outcome
a Python backtracking engine commits to.  All starred/`+` subpatterns in this
code base repeat either a single-character class (`clsRep`, which enumerates
the possible repetition counts, longest first when greedy) or a group that
consumes at least one character (`starGrp`, whose fuel is bounded by the text
length because every iteration advances). -/

def RM (α : Type) : Type := List Char → Nat → List (α × Nat)

/-- Succeed without consuming input. -/
def RM.pure {α : Type} (a : α) : RM α := fun _ p => [(a, p)]

/-- Sequencing: every outcome of `m` is continued with `f`, preserving
priority order. -/
def RM.bind {α β : Type} (m : RM α) (f : α → RM β) : RM β :=
  fun t p => (m t p).foldr (fun ap acc => f ap.1 t ap.2 ++ acc) []

instance : Monad RM where
  pure := RM.pure
  bind := RM.bind

/-- Failure (no outcomes). -/
def RM.fail {α : Type} : RM α := fun _ _ => []

/-- Ordered alternation `a|b`: `a`'s outcomes take priority. -/
def RM.alt {α : Type} (a b : RM α) : RM α := fun t p => a t p ++ b t p

/-- A single character of a class. -/
def RM.cls (pr : Char → Bool) : RM Char := fun t p =>
  match t.get? p with
  | some c => if pr c then [(c, p + 1)] else []
  | none => []

/-- A literal, optionally ASCII case-insensitive (`re.IGNORECASE`). -/
def RM.lit (s : List Char) (ci : Bool) : RM Unit := fun t p =>
  if litAt s t p ci then [((), p + s.length)] else []

/-- A literal given as a `String`. -/
def RM.litS (s : String) (ci : Bool) : RM Unit := RM.lit s.data ci

/-- Length of the maximal run of class characters starting at `p`. -/
def countWhileFrom (pr : Char → Bool) (t : List Char) : Nat → Nat → Nat
  | _, 0 => 0
  | p, Nat.succ k =>
    match t.get? p with
    | some c => if pr c then 1 + countWhileFrom pr t (p + 1) k else 0
    | none => 0

/-- Bounded repetition of a single-character class:
`[..]{lo,hi}` / `[..]*` / `[..]+` / `[..]?`, greedy (longest first) or lazy
(shortest first). -/
def RM.clsRep (pr : Char → Bool) (lo : Nat) (hi : Option Nat) (greedy : Bool) : RM Unit :=
  fun t p =>
    let maxRun := countWhileFrom pr t p (t.length + 1)
    let cap := match hi with | some h => min maxRun h | none => maxRun
    if cap < lo then []
    else (List.range (cap + 1 - lo)).map (fun j =>
      ((), p + (if greedy then cap - j else lo + j)))

/-- Capture: the text spanned by the submatch. -/
def RM.cap {α : Type} (m : RM α) : RM String := fun t p =>
  (m t p).map (fun aq => ((⟨(t.drop p).take (aq.2 - p)⟩ : String), aq.2))

/-- Optional subpattern `( … )?` (greedy: present first). -/
def RM.opt (m : RM Unit) : RM Unit := RM.alt m (RM.pure ())

/-- `\w` (ASCII). -/
def isWordChar (c : Char) : Bool := c.isAlphanum || c == '_'

/-- The word boundary `\b`. -/
def RM.wordB : RM Unit := fun t p =>
  let before := match p with
    | 0 => false
    | Nat.succ q => (match t.get? q with | some c => isWordChar c | none => false)
  let after := match t.get? p with | some c => isWordChar c | none => false
  if before != after then [((), p)] else []

/-- Star over a multi-character group, greedy.  Only iterations that advance
are explored (every starred group in this code base consumes at least one
character), so `t.length + 1 - p` fuel is exact. -/
def starGrpAux (m : RM Unit) (greedy : Bool) : Nat → List Char → Nat → List (Unit × Nat)
  | 0, _, p => [((), p)]
  | Nat.succ k, t, p =>
    let deeper := (m t p).foldr (fun uq acc =>
      (if p < uq.2 then starGrpAux m greedy k t uq.2 else []) ++ acc) []
    if greedy then deeper ++ [((), p)] else ((), p) :: deeper

/-- `( … )*` over a group. -/
def RM.starGrp (m : RM Unit) (greedy : Bool) : RM Unit :=
  fun t p => starGrpAux m greedy (t.length + 1 - p) t p

/-- `re.search`: leftmost position with an outcome; returns the committed
outcome's value together with the match span. -/
def reSearchAux {α : Type} (m : RM α) (t : List Char) : Nat → Nat → Option (α × Nat × Nat)
  | _, 0 => none
  | p, Nat.succ k =>
    match (m t p).head? with
    | some aq => some (aq.1, p, aq.2)
    | none => reSearchAux m t (p + 1) k

/-- `re.search`. -/
def reSearch {α : Type} (m : RM α) (t : List Char) : Option (α × Nat × Nat) :=
  reSearchAux m t 0 (t.length + 1)

/-- `re.findall` / `re.finditer`: repeated leftmost matching, continuing after
each match (with a one-step advance after an empty match, which none of the
transcribed patterns can produce). -/
def reFindAllAux {α : Type} (m : RM α) (t : List Char) : Nat → Nat → List α
  | _, 0 => []
  | p, Nat.succ k =>
    match (m t p).head? with
    | some aq => aq.1 :: reFindAllAux m t (if p < aq.2 then aq.2 else p + 1) k
    | none => reFindAllAux m t (p + 1) k

/-- `re.findall` / `re.finditer`. -/
def reFindAll {α : Type} (m : RM α) (t : List Char) : List α :=
  reFindAllAux m t 0 (t.length + 1)

/-- Ordered alternation of literals `(?:w1|w2|…)`, in source order. -/
def altLits (ls : List String) (ci : Bool) : RM Unit :=
  ls.foldr (fun s acc => RM.alt (RM.litS s ci) acc) RM.fail

/-! ### Contact extractors (src/backend/resume_parser.py) -/

/-- The class `[A-Z|a-z]` of the email TLD (note the literal `|` the source
pattern includes in the class). -/
def emailTldChar (c : Char) : Bool := c.isUpper || c == '|' || c.isLower

/-- `\b[A-Za-z0-9._%+-]+@[A-Za-z0-9.-]+\.[A-Z|a-z]{2,}\b` of
`_extract_email`. -/
def emailPat : RM String :=
  RM.cap (do
    let _ ← RM.wordB
    let _ ← RM.clsRep emailLocalChar 1 none true
    let _ ← RM.lit ['@'] false
    let _ ← RM.clsRep emailDomChar 1 none true
    let _ ← RM.lit ['.'] false
    let _ ← RM.clsRep emailTldChar 2 none true
    RM.wordB)

/-- `_extract_email`: first match or `""`. -/
def extract_email (text : String) : String :=
  match (reFindAll emailPat text.data).head? with
  | some e => e
  | none => ""

/-- The separator class `[-.\s]`. -/
def sepClass1 (c : Char) : Bool := c == '-' || c == '.' || isPyWs c

/-- `(\+?1[-.\s]?)?\(?([0-9]{3})\)?[-.\s]?([0-9]{3})[-.\s]?([0-9]{4})` of
`_extract_phone`, with the four groups joined the way the source joins the
findall tuple (an absent optional group contributes `""`). -/
def phonePat1 : RM String := do
  let g1 ← RM.cap (RM.opt (do
    let _ ← RM.opt (RM.lit ['+'] false)
    let _ ← RM.lit ['1'] false
    RM.clsRep sepClass1 0 (some 1) true))
  let _ ← RM.opt (RM.lit ['('] false)
  let g2 ← RM.cap (RM.clsRep Char.isDigit 3 (some 3) true)
  let _ ← RM.opt (RM.lit [')'] false)
  let _ ← RM.clsRep sepClass1 0 (some 1) true
  let g3 ← RM.cap (RM.clsRep Char.isDigit 3 (some 3) true)
  let _ ← RM.clsRep sepClass1 0 (some 1) true
  let g4 ← RM.cap (RM.clsRep Char.isDigit 4 (some 4) true)
  RM.pure (g1 ++ g2 ++ g3 ++ g4)

/-- `(\+?[0-9]{1,3}[-.\s]?)?\(?([0-9]{2,4})\)?[-.\s]?([0-9]{2,4})[-.\s]?([0-9]{2,4})`
of `_extract_phone`. -/
def phonePat2 : RM String := do
  let g1 ← RM.cap (RM.opt (do
    let _ ← RM.opt (RM.lit ['+'] false)
    let _ ← RM.clsRep Char.isDigit 1 (some 3) true
    RM.clsRep sepClass1 0 (some 1) true))
  let _ ← RM.opt (RM.lit ['('] false)
  let g2 ← RM.cap (RM.clsRep Char.isDigit 2 (some 4) true)
  let _ ← RM.opt (RM.lit [')'] false)
  let _ ← RM.clsRep sepClass1 0 (some 1) true
  let g3 ← RM.cap (RM.clsRep Char.isDigit 2 (some 4) true)
  let _ ← RM.clsRep sepClass1 0 (some 1) true
  let g4 ← RM.cap (RM.clsRep Char.isDigit 2 (some 4) true)
  RM.pure (g1 ++ g2 ++ g3 ++ g4)

/-- `_extract_phone`: the patterns are tried in order; the first one with any
match wins, and its first match's groups are concatenated. -/
def extract_phone (text : String) : String :=
  match (reFindAll phonePat1 text.data).head? with
  | some s => s
  | none =>
    match (reFindAll phonePat2 text.data).head? with
    | some s => s
    | none => ""

/-- The class `[\w-]`. -/
def wordDash (c : Char) : Bool := isWordChar c || c == '-'

/-- `linkedin\.com/in/[\w-]+`. -/
def lnPat1 : RM String :=
  RM.cap (do
    let _ ← RM.litS "linkedin.com/in/" true
    RM.clsRep wordDash 1 none true)

/-- `linkedin\.com/pub/[\w-]+`. -/
def lnPat2 : RM String :=
  RM.cap (do
    let _ ← RM.litS "linkedin.com/pub/" true
    RM.clsRep wordDash 1 none true)

/-- `linkedin\.com/company/[\w-]+`. -/
def lnPat3 : RM String :=
  RM.cap (do
    let _ ← RM.litS "linkedin.com/company/" true
    RM.clsRep wordDash 1 none true)

/-- `https?://linkedin\.com/in/[\w-]+`. -/
def lnPat4 : RM String :=
  RM.cap (do
    let _ ← RM.litS "http" true
    let _ ← RM.opt (RM.litS "s" true)
    let _ ← RM.litS "://linkedin.com/in/" true
    RM.clsRep wordDash 1 none true)

/-- `https?://www\.linkedin\.com/in/[\w-]+`. -/
def lnPat5 : RM String :=
  RM.cap (do
    let _ ← RM.litS "http" true
    let _ ← RM.opt (RM.litS "s" true)
    let _ ← RM.litS "://www.linkedin.com/in/" true
    RM.clsRep wordDash 1 none true)

/-- `linkedin\.com/in/[\w-]+/?`. -/
def lnPat6 : RM String :=
  RM.cap (do
    let _ ← RM.litS "linkedin.com/in/" true
    let _ ← RM.clsRep wordDash 1 none true
    RM.opt (RM.litS "/" true))

/-- `_extract_linkedin_url`: the first pattern (in list order) with a match
wins; the matched text is prefixed with `https://` unless it starts with
`http` (a case-sensitive `startswith`). -/
def extract_linkedin_url (text : String) : String :=
  match [lnPat1, lnPat2, lnPat3, lnPat4, lnPat5, lnPat6].findSome?
      (fun m => (reSearch m text.data).map (fun r => r.1)) with
  | some url => if litAt "http".data url.data 0 false then url else "https://" ++ url
  | none => ""

/-- The header-keyword blacklist of `_extract_name`. -/
def nameBlacklist : List String :=
  ["email", "phone", "linkedin", "github", "portfolio", "resume", "cv"]

/-- The line loop of `_extract_name`: a line qualifies when it is nonempty
after stripping, contains no blacklist keyword (case-insensitively), and
splits into 2–4 whitespace-words each starting with an uppercase letter. -/
def nameLoop : List (List Char) → String
  | [] => ""
  | line :: rest =>
    let l := stripChars line
    if !l.isEmpty && !(nameBlacklist.any (fun k => containsSub k.data (lowerChars l))) then
      let words := wordsWs l
      if 2 ≤ words.length && words.length ≤ 4
          && words.all (fun w => match w.head? with | some c => c.isUpper | none => true) then
        (⟨l⟩ : String)
      else nameLoop rest
    else nameLoop rest

/-- `_extract_name`: only the first 5 lines are considered. -/
def extract_name (text : String) : String :=
  nameLoop ((splitOnChar '\n' text.data).take 5)

/-! ### `ResumeParser._extract_skills` -/

/-- One skills pattern `\b(?:w1|w2|…)\b` (all seven share this shape),
`re.IGNORECASE`. -/
def skillWordPat (ls : List String) : RM String :=
  RM.cap (do
    let _ ← RM.wordB
    let _ ← altLits ls true
    RM.wordB)

/-- The seven category patterns of `_extract_skills`, in source order. -/
def skillsPatterns : List (RM String) :=
  [skillWordPat ["Python", "Java", "JavaScript", "C++", "C#", "PHP", "Ruby", "Go", "Rust", "Swift", "Kotlin"],
   skillWordPat ["React", "Angular", "Vue", "Node.js", "Django", "Flask", "Spring", "Laravel", "Express"],
   skillWordPat ["AWS", "Azure", "GCP", "Docker", "Kubernetes", "Jenkins", "Git", "GitHub", "GitLab"],
   skillWordPat ["SQL", "MySQL", "PostgreSQL", "MongoDB", "Redis", "Elasticsearch"],
   skillWordPat ["Machine Learning", "AI", "Data Science", "TensorFlow", "PyTorch", "Pandas", "NumPy"],
   skillWordPat ["HTML", "CSS", "Bootstrap", "SASS", "LESS", "Webpack", "Babel"],
   skillWordPat ["Agile", "Scrum", "DevOps", "CI/CD", "REST", "API", "Microservices"]]

/-- `_extract_skills`.  The optional spaCy tagger (`self.nlp`) is an external
collaborator modelled as an opaque `Option`-valued function from the text to
the noun tokens `_extract_skills_spacy` would return; when absent the
augmentation is skipped.  `list(set(...))` deduplicates with unspecified
iteration order; it is modelled as first-occurrence deduplication (no claim
depends on the order).  The pool then passes through `_normalize_skills` and
is truncated to 20. -/
def extract_skills (nlp : Option (String → List String)) (text : String) : List String :=
  let skills := skillsPatterns.foldl (fun acc pat => acc ++ reFindAll pat text.data) []
  let skills := skills ++ (match nlp with | some f => f text | none => [])
  let skills := ((skills.map pyStrip).filter (fun s => s != "")).eraseDups
  (parser_normalize_skills skills).take 20

/-! ### `ResumeParser._extract_experience` -/

/-- `[^|\n]`. -/
def notPipeNl (c : Char) : Bool := !(c == '|' || c == '\n')

/-- `[^@\n]`. -/
def notAtNl (c : Char) : Bool := !(c == '@' || c == '\n')

/-- `[^(]`. -/
def notLParen (c : Char) : Bool := c != '('

/-- `[^)]`. -/
def notRParen (c : Char) : Bool := c != ')'

/-- `[^-]`. -/
def notDashHy (c : Char) : Bool := c != '-'

/-- `[^,\n]`. -/
def notCommaNl (c : Char) : Bool := !(c == ',' || c == '\n')

/-- `[A-Za-z\s&,.-]`. -/
def expClass5 (c : Char) : Bool :=
  c.isAlpha || isPyWs c || c == '&' || c == ',' || c == '.' || c == '-'

/-- `[^|\n@,]`. -/
def notPipeNlAtComma (c : Char) : Bool :=
  !(c == '|' || c == '\n' || c == '@' || c == ',')

/-- Experience pattern 1: `([^|\n]+)\s*\|\s*([^|\n]+)\s*\|\s*([^|\n]+)`. -/
def expPat1 : RM (String × String × String) := do
  let g1 ← RM.cap (RM.clsRep notPipeNl 1 none true)
  let _ ← RM.clsRep isPyWs 0 none true
  let _ ← RM.lit ['|'] false
  let _ ← RM.clsRep isPyWs 0 none true
  let g2 ← RM.cap (RM.clsRep notPipeNl 1 none true)
  let _ ← RM.clsRep isPyWs 0 none true
  let _ ← RM.lit ['|'] false
  let _ ← RM.clsRep isPyWs 0 none true
  let g3 ← RM.cap (RM.clsRep notPipeNl 1 none true)
  RM.pure (g1, g2, g3)

/-- Experience pattern 2: `([^@\n]+)\s+at\s+([^(]+)\s*\(([^)]+)\)`
(`re.IGNORECASE`). -/
def expPat2 : RM (String × String × String) := do
  let g1 ← RM.cap (RM.clsRep notAtNl 1 none true)
  let _ ← RM.clsRep isPyWs 1 none true
  let _ ← RM.litS "at" true
  let _ ← RM.clsRep isPyWs 1 none true
  let g2 ← RM.cap (RM.clsRep notLParen 1 none true)
  let _ ← RM.clsRep isPyWs 0 none true
  let _ ← RM.lit ['('] false
  let g3 ← RM.cap (RM.clsRep notRParen 1 none true)
  let _ ← RM.lit [')'] false
  RM.pure (g1, g2, g3)

/-- Experience pattern 3: `([^-]+)\s*-\s*([^(]+)\s*\(([^)]+)\)`. -/
def expPat3 : RM (String × String × String) := do
  let g1 ← RM.cap (RM.clsRep notDashHy 1 none true)
  let _ ← RM.clsRep isPyWs 0 none true
  let _ ← RM.lit ['-'] false
  let _ ← RM.clsRep isPyWs 0 none true
  let g2 ← RM.cap (RM.clsRep notLParen 1 none true)
  let _ ← RM.clsRep isPyWs 0 none true
  let _ ← RM.lit ['('] false
  let g3 ← RM.cap (RM.clsRep notRParen 1 none true)
  let _ ← RM.lit [')'] false
  RM.pure (g1, g2, g3)

/-- Experience pattern 4: `([^,\n]+),\s*([^,\n]+),\s*([^,\n]+)`. -/
def expPat4 : RM (String × String × String) := do
  let g1 ← RM.cap (RM.clsRep notCommaNl 1 none true)
  let _ ← RM.lit [','] false
  let _ ← RM.clsRep isPyWs 0 none true
  let g2 ← RM.cap (RM.clsRep notCommaNl 1 none true)
  let _ ← RM.lit [','] false
  let _ ← RM.clsRep isPyWs 0 none true
  let g3 ← RM.cap (RM.clsRep notCommaNl 1 none true)
  RM.pure (g1, g2, g3)

/-- Experience pattern 5:
`([A-Za-z\s&,.-]+?)\s*[-–]\s*([A-Za-z\s&,.-]+?)\s*(\d{4})\s*[-–]\s*(\d{4}|present|current)`
(`re.IGNORECASE`; the first two groups are lazy). -/
def expPat5 : RM (String × String × String × String) := do
  let g1 ← RM.cap (RM.clsRep expClass5 1 none false)
  let _ ← RM.clsRep isPyWs 0 none true
  let _ ← RM.cls isDashChar
  let _ ← RM.clsRep isPyWs 0 none true
  let g2 ← RM.cap (RM.clsRep expClass5 1 none false)
  let _ ← RM.clsRep isPyWs 0 none true
  let g3 ← RM.cap (RM.clsRep Char.isDigit 4 (some 4) true)
  let _ ← RM.clsRep isPyWs 0 none true
  let _ ← RM.cls isDashChar
  let _ ← RM.clsRep isPyWs 0 none true
  let g4 ← RM.cap (RM.alt (RM.clsRep Char.isDigit 4 (some 4) true)
    (RM.alt (RM.litS "present" true) (RM.litS "current" true)))
  RM.pure (g1, g2, g3, g4)

/-- Experience pattern 6: `([A-Z][^|\n@,]+)\s*\n\s*([A-Z][^|\n@,]+)`
(`[A-Z]` under `re.IGNORECASE` is any letter). -/
def expPat6 : RM (String × String) := do
  let g1 ← RM.cap (do
    let _ ← RM.cls Char.isAlpha
    RM.clsRep notPipeNlAtComma 1 none true)
  let _ ← RM.clsRep isPyWs 0 none true
  let _ ← RM.lit ['\n'] false
  let _ ← RM.clsRep isPyWs 0 none true
  let g2 ← RM.cap (do
    let _ ← RM.cls Char.isAlpha
    RM.clsRep notPipeNlAtComma 1 none true)
  RM.pure (g1, g2)

/-- `re.sub(r"[•\-\*]", "", x).strip()` applied to every extracted field. -/
def cleanBullets (s : String) : String :=
  pyStrip (⟨s.data.filter (fun c => !(c == '•' || c == '-' || c == '*'))⟩ : String)

/-- The title filter: a title containing a section-header word is a false
positive. -/
def expTitleBad (title : String) : Bool :=
  ["experience", "work", "professional", "employment"].any
    (fun w => containsSub w.data (pyLower title).data)

/-- Build one experience entry from stripped groups: clean the bullet
characters, then drop entries with a short title/company or a
section-header word in the title. -/
def mkExpEntry (title company date_range : String) : Option ExperienceEntry :=
  let title := cleanBullets (pyStrip title)
  let company := cleanBullets (pyStrip company)
  let date_range := cleanBullets (pyStrip date_range)
  if title.length < 3 || company.length < 3 then none
  else if expTitleBad title then none
  else some ⟨title, company, date_range⟩

/-- The pattern battery over the experience section, in source order: for the
3-group patterns the groups are title, company, date range; for pattern 5
they are company, title, start year, end year (re-joined `start - end`); for
pattern 6 title and company with an empty date range. -/
def expBattery (sec : List Char) : List ExperienceEntry :=
  ((reFindAll expPat1 sec).filterMap (fun g => mkExpEntry g.1 g.2.1 g.2.2))
  ++ ((reFindAll expPat2 sec).filterMap (fun g => mkExpEntry g.1 g.2.1 g.2.2))
  ++ ((reFindAll expPat3 sec).filterMap (fun g => mkExpEntry g.1 g.2.1 g.2.2))
  ++ ((reFindAll expPat4 sec).filterMap (fun g => mkExpEntry g.1 g.2.1 g.2.2))
  ++ ((reFindAll expPat5 sec).filterMap (fun g =>
        mkExpEntry g.2.1 g.1 (pyStrip g.2.2.1 ++ " - " ++ pyStrip g.2.2.2)))
  ++ ((reFindAll expPat6 sec).filterMap (fun g => mkExpEntry g.1 g.2 ""))

/-- `([A-Z][a-z]+(?:\s+[A-Z][a-z]+)*)`: a capitalized word sequence (the
company / institution group of the fallback patterns). -/
def capWordSeq : RM String :=
  RM.cap (do
    let _ ← RM.cls Char.isUpper
    let _ ← RM.clsRep Char.isLower 1 none true
    RM.starGrp (do
      let _ ← RM.clsRep isPyWs 1 none true
      let _ ← RM.cls Char.isUpper
      RM.clsRep Char.isLower 1 none true) true)

/-- `([A-Z][a-z]+(?:\s+[A-Z][a-z]+)*)\s+(?:Inc|Corp|Ltd|LLC|Company|Technologies|Systems|Solutions)`
(case-sensitive). -/
def companyPat1 : RM String := do
  let g ← capWordSeq
  let _ ← RM.clsRep isPyWs 1 none true
  let _ ← altLits ["Inc", "Corp", "Ltd", "LLC", "Company", "Technologies", "Systems", "Solutions"] false
  RM.pure g

/-- `([A-Z][a-z]+(?:\s+[A-Z][a-z]+)*)\s+(?:Inc\.|Corp\.|Ltd\.|LLC\.)`. -/
def companyPat2 : RM String := do
  let g ← capWordSeq
  let _ ← RM.clsRep isPyWs 1 none true
  let _ ← altLits ["Inc.", "Corp.", "Ltd.", "LLC."] false
  RM.pure g

/-- `.` without `re.DOTALL`. -/
def notNl (c : Char) : Bool := c != '\n'

/-- `.{0,200}needle.{0,200}` (`re.IGNORECASE`; `re.escape` makes the needle a
literal). -/
def contextPat (needle : String) : RM String :=
  RM.cap (do
    let _ ← RM.clsRep notNl 0 (some 200) true
    let _ ← RM.litS needle true
    RM.clsRep notNl 0 (some 200) true)

/-- `(?:Senior\s+)?(?:Software\s+)?(?:Engineer|Developer|Analyst|Manager|Consultant|Specialist)`
(`re.IGNORECASE`). -/
def jobTitlePat : RM String :=
  RM.cap (do
    let _ ← RM.opt (do
      let _ ← RM.litS "Senior" true
      RM.clsRep isPyWs 1 none true)
    let _ ← RM.opt (do
      let _ ← RM.litS "Software" true
      RM.clsRep isPyWs 1 none true)
    altLits ["Engineer", "Developer", "Analyst", "Manager", "Consultant", "Specialist"] true)

/-- One company of the experience fallback: search a ±200-character window
around the company name and take the first job title found in it. -/
def expFallbackOne (text : List Char) (company : String) : Option ExperienceEntry :=
  match reSearch (contextPat company) text with
  | some r =>
    match (reFindAll jobTitlePat r.1.data).head? with
    | some jt => some ⟨jt, company, ""⟩
    | none => none
  | none => none

/-- The looser whole-document fallback of `_extract_experience`: for each of
the two company patterns, at most 3 companies each contribute at most one
entry. -/
def expFallback (text : List Char) : List ExperienceEntry :=
  (((reFindAll companyPat1 text).take 3).filterMap (expFallbackOne text))
  ++ (((reFindAll companyPat2 text).take 3).filterMap (expFallbackOne text))

/-- `_extract_experience`: the battery runs on the located section; when it
produces nothing the fallback runs on the whole text. -/
def extract_experience (text : String) : List ExperienceEntry :=
  let exp_section := find_section text
    ["experience", "work history", "employment", "career",
     "professional experience", "work experience"]
  let experience := if exp_section != "" then expBattery exp_section.data else []
  if experience.isEmpty then expFallback text.data else experience

/-! ### `ResumeParser._extract_education` -/

/-- A parsed education entry (`{degree, institution, year}`). -/
structure EducationEntry where
  degree : String
  institution : String
  year : String
deriving DecidableEq, Repr

/-- Education pattern 1:
`([A-Za-z\s&,.-]+?)\s+from\s+([A-Za-z\s&,.-]+?)\s*\((\d{4})\)`
(`re.IGNORECASE`, lazy groups). -/
def eduPat1 : RM (String × String × String) := do
  let g1 ← RM.cap (RM.clsRep expClass5 1 none false)
  let _ ← RM.clsRep isPyWs 1 none true
  let _ ← RM.litS "from" true
  let _ ← RM.clsRep isPyWs 1 none true
  let g2 ← RM.cap (RM.clsRep expClass5 1 none false)
  let _ ← RM.clsRep isPyWs 0 none true
  let _ ← RM.lit ['('] false
  let g3 ← RM.cap (RM.clsRep Char.isDigit 4 (some 4) true)
  let _ ← RM.lit [')'] false
  RM.pure (g1, g2, g3)

/-- Education pattern 2: `([A-Za-z\s&,.-]+?)\s*[-–]\s*([A-Za-z\s&,.-]+?)\s*(\d{4})`. -/
def eduPat2 : RM (String × String × String) := do
  let g1 ← RM.cap (RM.clsRep expClass5 1 none false)
  let _ ← RM.clsRep isPyWs 0 none true
  let _ ← RM.cls isDashChar
  let _ ← RM.clsRep isPyWs 0 none true
  let g2 ← RM.cap (RM.clsRep expClass5 1 none false)
  let _ ← RM.clsRep isPyWs 0 none true
  let g3 ← RM.cap (RM.clsRep Char.isDigit 4 (some 4) true)
  RM.pure (g1, g2, g3)

/-- Education pattern 3: `([A-Za-z\s&,.-]+?),\s*([A-Za-z\s&,.-]+?),\s*(\d{4})`. -/
def eduPat3 : RM (String × String × String) := do
  let g1 ← RM.cap (RM.clsRep expClass5 1 none false)
  let _ ← RM.lit [','] false
  let _ ← RM.clsRep isPyWs 0 none true
  let g2 ← RM.cap (RM.clsRep expClass5 1 none false)
  let _ ← RM.lit [','] false
  let _ ← RM.clsRep isPyWs 0 none true
  let g3 ← RM.cap (RM.clsRep Char.isDigit 4 (some 4) true)
  RM.pure (g1, g2, g3)

/-- Education pattern 5 (2 groups):
`(Bachelor|Master|PhD|Doctorate|Associate|Certificate|Diploma)[^,\n]*,\s*([^,\n]+)`. -/
def eduPat5 : RM (String × String) := do
  let g1 ← RM.cap (altLits ["Bachelor", "Master", "PhD", "Doctorate", "Associate", "Certificate", "Diploma"] true)
  let _ ← RM.clsRep notCommaNl 0 none true
  let _ ← RM.lit [','] false
  let _ ← RM.clsRep isPyWs 0 none true
  let g2 ← RM.cap (RM.clsRep notCommaNl 1 none true)
  RM.pure (g1, g2)

/-- Education pattern 6: `([A-Za-z\s&,.-]+?)\s*\((\d{4})\)\s*[-–]\s*([A-Za-z\s&,.-]+)`. -/
def eduPat6 : RM (String × String × String) := do
  let g1 ← RM.cap (RM.clsRep expClass5 1 none false)
  let _ ← RM.clsRep isPyWs 0 none true
  let _ ← RM.lit ['('] false
  let g2 ← RM.cap (RM.clsRep Char.isDigit 4 (some 4) true)
  let _ ← RM.lit [')'] false
  let _ ← RM.clsRep isPyWs 0 none true
  let _ ← RM.cls isDashChar
  let _ ← RM.clsRep isPyWs 0 none true
  let g3 ← RM.cap (RM.clsRep expClass5 1 none true)
  RM.pure (g1, g2, g3)

/-- The degree filter word list. -/
def eduDegreeBad (degree : String) : Bool :=
  ["education", "academic", "qualifications"].any
    (fun w => containsSub w.data (pyLower degree).data)

/-- Build one education entry: bullet cleanup, then the length and
section-header-word filters. -/
def mkEduEntry (degree institution year : String) : Option EducationEntry :=
  let degree := cleanBullets (pyStrip degree)
  let institution := cleanBullets (pyStrip institution)
  let year := cleanBullets (pyStrip year)
  if degree.length < 3 || institution.length < 3 then none
  else if eduDegreeBad degree then none
  else some ⟨degree, institution, year⟩

/-- The education pattern battery in source order.  Group roles follow the
source's per-pattern branches: pattern 1 is degree/institution/year, pattern
6 is institution/year/degree, the other 3-group patterns are
institution/degree/year, and the 2-group pattern 5 is degree/institution
with an empty year. -/
def eduBattery (sec : List Char) : List EducationEntry :=
  ((reFindAll eduPat1 sec).filterMap (fun g => mkEduEntry g.1 g.2.1 g.2.2))
  ++ ((reFindAll eduPat2 sec).filterMap (fun g => mkEduEntry g.2.1 g.1 g.2.2))
  ++ ((reFindAll eduPat3 sec).filterMap (fun g => mkEduEntry g.2.1 g.1 g.2.2))
  ++ ((reFindAll expPat1 sec).filterMap (fun g => mkEduEntry g.2.1 g.1 g.2.2))
  ++ ((reFindAll eduPat5 sec).filterMap (fun g => mkEduEntry g.1 g.2 ""))
  ++ ((reFindAll eduPat6 sec).filterMap (fun g => mkEduEntry g.2.2 g.1 g.2.1))

/-- `(B\.?S\.?|M\.?S\.?|B\.?A\.?|M\.?A\.?|B\.?E\.?|M\.?E\.?)` — one branch. -/
def degAbbrevPat (x y : String) : RM Unit := do
  let _ ← RM.litS x true
  let _ ← RM.opt (RM.litS "." false)
  let _ ← RM.litS y true
  RM.opt (RM.litS "." false)

/-- Degree fallback pattern 1 — findall yields only the keyword group. -/
def degPat1 : RM String := do
  let g ← RM.cap (altLits ["Bachelor", "Master", "PhD", "Doctorate", "Associate", "Certificate", "Diploma"] true)
  let _ ← RM.clsRep notCommaNl 0 none true
  RM.pure g

/-- Degree fallback pattern 2 — the abbreviation alternation. -/
def degPat2 : RM String := do
  let g ← RM.cap (RM.alt (degAbbrevPat "B" "S") (RM.alt (degAbbrevPat "M" "S")
    (RM.alt (degAbbrevPat "B" "A") (RM.alt (degAbbrevPat "M" "A")
    (RM.alt (degAbbrevPat "B" "E") (degAbbrevPat "M" "E"))))))
  let _ ← RM.clsRep notCommaNl 0 none true
  RM.pure g

/-- `([A-Z][a-z]+(?:\s+[A-Z][a-z]+)*)\s+(?:University|College|Institute|School)`
(case-sensitive). -/
def instPat : RM String := do
  let g ← capWordSeq
  let _ ← RM.clsRep isPyWs 1 none true
  let _ ← altLits ["University", "College", "Institute", "School"] false
  RM.pure g

/-- One degree keyword of the education fallback. -/
def eduFallbackOne (text : List Char) (degree : String) : Option EducationEntry :=
  match reSearch (contextPat degree) text with
  | some r =>
    match (reFindAll instPat r.1.data).head? with
    | some inst => some ⟨degree, inst, ""⟩
    | none => none
  | none => none

/-- The whole-document education fallback: at most 2 degrees per pattern. -/
def eduFallback (text : List Char) : List EducationEntry :=
  (((reFindAll degPat1 text).take 2).filterMap (eduFallbackOne text))
  ++ (((reFindAll degPat2 text).take 2).filterMap (eduFallbackOne text))

/-- `_extract_education`. -/
def extract_education (text : String) : List EducationEntry :=
  let edu_section := find_section text
    ["education", "academic", "qualifications", "academic background",
     "educational background"]
  let education := if edu_section != "" then eduBattery edu_section.data else []
  if education.isEmpty then eduFallback text.data else education

/-! ### Current position, location, summary -/

/-- `current[ly]?\s*:?\s*([A-Za-z\s&,.-]+?)\s*at\s*([A-Za-z\s&,.-]+)` and the
`present` twin (`re.IGNORECASE`). -/
def curPatKw (kw : String) : RM (String × String) := do
  let _ ← RM.litS kw true
  let _ ← RM.clsRep (fun c => c == 'l' || c == 'y' || c == 'L' || c == 'Y') 0 (some 1) true
  let _ ← RM.clsRep isPyWs 0 none true
  let _ ← RM.clsRep (fun c => c == ':') 0 (some 1) true
  let _ ← RM.clsRep isPyWs 0 none true
  let g1 ← RM.cap (RM.clsRep expClass5 1 none false)
  let _ ← RM.clsRep isPyWs 0 none true
  let _ ← RM.litS "at" true
  let _ ← RM.clsRep isPyWs 0 none true
  let g2 ← RM.cap (RM.clsRep expClass5 1 none true)
  RM.pure (g1, g2)

/-- `([A-Za-z\s&,.-]+?)\s*[-–]\s*([A-Za-z\s&,.-]+?)\s*(present|current)`
(`re.IGNORECASE`; the third group is captured but unused). -/
def curPat3 : RM (String × String) := do
  let g1 ← RM.cap (RM.clsRep expClass5 1 none false)
  let _ ← RM.clsRep isPyWs 0 none true
  let _ ← RM.cls isDashChar
  let _ ← RM.clsRep isPyWs 0 none true
  let g2 ← RM.cap (RM.clsRep expClass5 1 none false)
  let _ ← RM.clsRep isPyWs 0 none true
  let _ ← RM.alt (RM.litS "present" true) (RM.litS "current" true)
  RM.pure (g1, g2)

/-- `_extract_current_position`: first pattern with a match wins; groups 1
and 2 are stripped into (position, company). -/
def extract_current_position (text : String) : String × String :=
  match [curPatKw "current", curPatKw "present", curPat3].findSome?
      (fun m => (reSearch m text.data).map (fun r => r.1)) with
  | some g => (pyStrip g.1, pyStrip g.2)
  | none => ("", "")

/-- `[A-Za-z\s]`. -/
def locClass (c : Char) : Bool := c.isAlpha || isPyWs c

/-- `([A-Za-z\s]+,\s*[A-Za-z\s]+)`. -/
def locPat1 : RM String :=
  RM.cap (do
    let _ ← RM.clsRep locClass 1 none true
    let _ ← RM.lit [','] false
    let _ ← RM.clsRep isPyWs 0 none true
    RM.clsRep locClass 1 none true)

/-- `([A-Za-z\s]+,\s*[A-Z]{2})`. -/
def locPat2 : RM String :=
  RM.cap (do
    let _ ← RM.clsRep locClass 1 none true
    let _ ← RM.lit [','] false
    let _ ← RM.clsRep isPyWs 0 none true
    RM.clsRep Char.isUpper 2 (some 2) true)

/-- `([A-Za-z\s]+,\s*[A-Za-z\s]+,\s*[A-Za-z\s]+)`. -/
def locPat3 : RM String :=
  RM.cap (do
    let _ ← RM.clsRep locClass 1 none true
    let _ ← RM.lit [','] false
    let _ ← RM.clsRep isPyWs 0 none true
    let _ ← RM.clsRep locClass 1 none true
    let _ ← RM.lit [','] false
    let _ ← RM.clsRep isPyWs 0 none true
    RM.clsRep locClass 1 none true)

/-- `_extract_location`: first pattern with any match wins; its first match
is stripped. -/
def extract_location (text : String) : String :=
  match [locPat1, locPat2, locPat3].findSome?
      (fun m => (reFindAll m text.data).head?) with
  | some s => pyStrip s
  | none => ""

/-- `_extract_summary`: first ≤3 dot-separated sentences of the
summary/objective/profile/about section, re-joined with `". "` and
stripped. -/
def extract_summary (text : String) : String :=
  let sec := find_section text ["summary", "objective", "profile", "about"]
  if sec != "" then
    pyStrip (String.intercalate ". "
      (((splitOnChar '.' sec.data).take 3).map (fun l => (⟨l⟩ : String))))
  else ""

/-! ### `ResumeParser._parse_text` and `_post_process` -/

/-- The record `_parse_text` builds (the dict literal at its top). -/
structure ParsedData where
  name : String
  email : String
  phone : String
  linkedin_url : String
  skills : List String
  experience : List ExperienceEntry
  education : List EducationEntry
  current_position : String
  current_company : String
  experience_years : Int
  location : String
  summary : String
deriving Repr

/-- `_parse_text`, with the optional spaCy tagger and the wall clock
(consumed by `_calculate_experience_years`) as explicit parameters.  Every
extractor is total; the Python function has no raise path on string input. -/
def parse_text (nlp : Option (String → List String)) (now : YM) (text : String) : ParsedData :=
  let experience := extract_experience text
  let current_info := extract_current_position text
  { name := extract_name text
    email := extract_email text
    phone := extract_phone text
    linkedin_url := extract_linkedin_url text
    skills := extract_skills nlp text
    experience := experience
    education := extract_education text
    current_position := current_info.1
    current_company := current_info.2
    experience_years := calculate_experience_years now experience
    location := extract_location text
    summary := extract_summary text }

/-- `_post_process`: trim the name, normalize the skills with the
parser-level `_normalize_skills`, clamp the experience years to [0, 60]
(`int()` on the already-integer field cannot raise). -/
def post_process (d : ParsedData) : ParsedData :=
  { d with
    name := pyStrip d.name
    skills := parser_normalize_skills d.skills
    experience_years := max 0 (min 60 d.experience_years) }

/-- The all-empty record the claim describes for empty input. -/
def emptyParsedData : ParsedData :=
  { name := "", email := "", phone := "", linkedin_url := "", skills := []
    experience := [], education := [], current_position := ""
    current_company := "", experience_years := 0, location := "", summary := "" }

/-! ### `LinkedInScraper.merge_with_resume_data` (src/backend/linkedin_scraper.py) -/

/-- The profile-side record: exactly the keys `merge_with_resume_data` reads
from `linkedin_data`, plus `email`/`phone`, which normalized profile records
carry but the merger never consults (claim C5). -/
structure LinkedInData where
  name : String
  email : String
  phone : String
  profile_url : String
  location : String
  title : String
  company : String
  summary : String
  skills : List String
  experience : List ExperienceEntry
  education : List EducationEntry
deriving Repr

/-- The resume-side record: the keys `merge_with_resume_data` reads from
`resume_data`. -/
structure ResumeData where
  name : String
  email : String
  phone : String
  resume_path : String
  location : String
  current_position : String
  current_company : String
  summary : String
  skills : List String
  experience : List ExperienceEntry
  education : List EducationEntry
  experience_years : Int
deriving Repr

/-- The merged record (`merged_data` dict literal). -/
structure MergedData where
  name : String
  email : String
  phone : String
  linkedin_url : String
  resume_path : String
  location : String
  current_position : String
  current_company : String
  summary : String
  skills : List String
  experience : List ExperienceEntry
  education : List EducationEntry
  experience_years : Int
deriving Repr

/-- Python `a or b` for strings (`""` is falsy). -/
def pyOrS (a b : String) : String := if a = "" then b else a

/-- `merge_with_resume_data`.  `list(set(linkedin_skills + resume_skills))`
deduplicates with unspecified iteration order; it is modelled as
first-occurrence deduplication of the concatenation (the element set is
exact; no claim depends on the order). -/
def merge_with_resume_data (linkedin_data : LinkedInData) (resume_data : ResumeData) :
    MergedData :=
  { name := pyOrS linkedin_data.name resume_data.name
    email := resume_data.email
    phone := resume_data.phone
    linkedin_url := linkedin_data.profile_url
    resume_path := resume_data.resume_path
    location := pyOrS linkedin_data.location resume_data.location
    current_position := pyOrS linkedin_data.title resume_data.current_position
    current_company := pyOrS linkedin_data.company resume_data.current_company
    summary := pyOrS linkedin_data.summary resume_data.summary
    skills := (linkedin_data.skills ++ resume_data.skills).eraseDups
    experience := linkedin_data.experience ++ resume_data.experience
    education := linkedin_data.education ++ resume_data.education
    experience_years := resume_data.experience_years }

/-! ### A store-passing view of the merger, for the frame/aliasing claim

Claim C9 is about Python object identity: the merger must not mutate either
input and must put fresh list objects in the merged record.  To state that in
a shallow embedding, list objects are given explicit identities: a `Heap`
maps object ids to list payloads, records hold ids for their sequence fields
(strings and ints are immutable in Python and stay inline), and every list
the merger builds (`list(set(a + b))` and the two `+` concatenations)
allocates a fresh id.  The transcription only ever reads the inputs and
appends new cells to the heap. -/

/-- Payload of one Python list object used by the merger. -/
inductive SeqVal where
  | skillsV (xs : List String)
  | expV (xs : List ExperienceEntry)
  | eduV (xs : List EducationEntry)
deriving Repr

/-- A heap of list objects. -/
abbrev Heap := List (Nat × SeqVal)

/-- Payload of the object with id `r`, if allocated. -/
def heapLookup (h : Heap) (r : Nat) : Option SeqVal :=
  (h.find? (fun e => e.1 == r)).map (fun e => e.2)

/-- The allocated ids. -/
def heapDom (h : Heap) : List Nat := h.map (fun e => e.1)

/-- An id strictly larger than every allocated id (hence fresh). -/
def heapFreshId (h : Heap) : Nat := (h.map (fun e => e.1)).foldr max 0 + 1

/-- Read a skills payload (a dangling reference reads as `[]`, mirroring
`.get(key, [])` on a record missing the field). -/
def heapGetSkills (h : Heap) (r : Nat) : List String :=
  match heapLookup h r with | some (.skillsV xs) => xs | _ => []

/-- Read an experience payload. -/
def heapGetExp (h : Heap) (r : Nat) : List ExperienceEntry :=
  match heapLookup h r with | some (.expV xs) => xs | _ => []

/-- Read an education payload. -/
def heapGetEdu (h : Heap) (r : Nat) : List EducationEntry :=
  match heapLookup h r with | some (.eduV xs) => xs | _ => []

/-- Profile-side record with sequence fields as heap references. -/
structure HLinkedInData where
  name : String
  email : String
  phone : String
  profile_url : String
  location : String
  title : String
  company : String
  summary : String
  skillsRef : Nat
  expRef : Nat
  eduRef : Nat

/-- Resume-side record with sequence fields as heap references. -/
structure HResumeData where
  name : String
  email : String
  phone : String
  resume_path : String
  location : String
  current_position : String
  current_company : String
  summary : String
  skillsRef : Nat
  expRef : Nat
  eduRef : Nat
  experience_years : Int

/-- Merged record with sequence fields as heap references. -/
structure HMergedData where
  name : String
  email : String
  phone : String
  linkedin_url : String
  resume_path : String
  location : String
  current_position : String
  current_company : String
  summary : String
  skillsRef : Nat
  expRef : Nat
  eduRef : Nat
  experience_years : Int

/-- Store-passing `merge_with_resume_data`: reads the inputs' payloads,
builds the three merged lists in fresh cells, never writes an existing
cell. -/
def merge_with_resume_data_alloc (h : Heap) (ld : HLinkedInData) (rd : HResumeData) :
    Heap × HMergedData :=
  let lsk := heapGetSkills h ld.skillsRef
  let rsk := heapGetSkills h rd.skillsRef
  let lex := heapGetExp h ld.expRef
  let rex := heapGetExp h rd.expRef
  let led := heapGetEdu h ld.eduRef
  let red := heapGetEdu h rd.eduRef
  let i := heapFreshId h
  (h ++ [(i, SeqVal.skillsV ((lsk ++ rsk).eraseDups)),
         (i + 1, SeqVal.expV (lex ++ rex)),
         (i + 2, SeqVal.eduV (led ++ red))],
   { name := pyOrS ld.name rd.name
     email := rd.email
     phone := rd.phone
     linkedin_url := ld.profile_url
     resume_path := rd.resume_path
     location := pyOrS ld.location rd.location
     current_position := pyOrS ld.title rd.current_position
     current_company := pyOrS ld.company rd.current_company
     summary := pyOrS ld.summary rd.summary
     skillsRef := i
     expRef := i + 1
     eduRef := i + 2
     experience_years := rd.experience_years })

/-! ### `normalize_candidate_data` (src/app.py) -/

/-- First-occurrence lookup in a Python dict modelled as an association list
(real dicts have unique keys; the operations below are insensitive to
duplicates). -/
def dictGet? (es : List (String × PyVal)) (k : String) : Option PyVal :=
  (es.find? (fun e => e.1 == k)).map (fun e => e.2)

/-- `d.get(k, default)`. -/
def dictGetD (es : List (String × PyVal)) (k : String) (dflt : PyVal) : PyVal :=
  (dictGet? es k).getD dflt

/-- `d[k] = v`: replace the value at the first occurrence of `k`, or append
a new entry (Python dicts update in place, keeping insertion order). -/
def dictSet : List (String × PyVal) → String → PyVal → List (String × PyVal)
  | [], k, v => [(k, v)]
  | e :: rest, k, v => if e.1 == k then (k, v) :: rest else e :: dictSet rest k v

/-- The in-place field rewrites of `normalize_candidate_data` on the entries
of a dict: email, phone, skills and experience-years go through the four
validators; the name is trimmed only when it is a string. -/
def normalize_candidate_entries (es0 : List (String × PyVal)) : List (String × PyVal) :=
  let es := dictSet es0 "email" (.pstr (validate_email (dictGetD es0 "email" .pnone)))
  let es := dictSet es "phone" (.pstr (normalize_phone (dictGetD es "phone" .pnone)))
  let es := dictSet es "skills"
    (.plist ((app_normalize_skills (dictGetD es "skills" (.plist []))).map .pstr))
  let es := dictSet es "experience_years"
    (.pint (clamp_experience_years (dictGetD es "experience_years" (.pint 0)) 0 60))
  match dictGetD es "name" .pnone with
  | .pstr s => dictSet es "name" (.pstr (pyStrip s))
  | _ => es

/-- `normalize_candidate_data`: non-dicts give `{}`; on a dict the five
fields are rewritten in place and the (same) dict is returned. -/
def normalize_candidate_data (candidate : PyVal) : PyVal :=
  match candidate with
  | .pdict es => .pdict (normalize_candidate_entries es)
  | _ => .pdict []

/-! ### Claim-side predicates -/

/-- Only digit characters. -/
def digitsOnly (l : List Char) : Bool := l.all Char.isDigit

/-- The shape claim C2 asserts for a normalized phone: only digit characters
plus at most one LEADING `+`. -/
def phoneClaimShape (r : String) : Bool :=
  match r.data with
  | [] => true
  | c :: rest => (c == '+' && digitsOnly rest) || digitsOnly (c :: rest)

/-! ## Theorems

Helper lemmas first, then the claim theorems (one per claim, preceded by
counterexamples/witnesses where the claim's status needs them). -/

/-- `scanPos` is the leftmost `findSome?` over the scanned range. -/
theorem scanPos_eq_range' {α : Type} (f : Nat → Option α) :
    ∀ (k s : Nat), scanPos f s k = (List.range' s k).findSome? f := by
  intro k
  induction k with
  | zero => intro s; rfl
  | succ n ih =>
    intro s
    rw [List.range'_succ, List.findSome?_cons]
    show (match f s with | some a => some a | none => scanPos f (s + 1) n) = _
    cases f s with
    | some a => rfl
    | none => simpa using ih (s + 1)

/-- `findSome?` of a boolean guard is `find?`. -/
theorem findSome?_guard_eq_find? (p : Nat → Bool) :
    ∀ l : List Nat, l.findSome? (fun q => if p q then some q else none) = l.find? p := by
  intro l
  induction l with
  | nil => rfl
  | cons a t ih =>
    rw [List.findSome?_cons, List.find?]
    cases h : p a <;> simp [h, ih]

/-- A successful scan comes from a successful probe. -/
theorem scanPos_some {α : Type} (f : Nat → Option α) :
    ∀ (k s : Nat) (a : α), scanPos f s k = some a → ∃ p, f p = some a := by
  intro k
  induction k with
  | zero => intro s a h; exact absurd h (by simp [scanPos])
  | succ n ih =>
    intro s a h
    revert h
    show (match f s with | some b => some b | none => scanPos f (s + 1) n) = some a → _
    cases hf : f s with
    | some b => intro h; exact ⟨s, hf.trans h⟩
    | none => intro h; exact ih (s + 1) a h

/-- An alternation hit is numbered within the alternation's range. -/
theorem monthAltAt_bounds : ∀ (abbrevs : List (List Char)) (k : Nat) (t : List Char) (p m : Nat),
    monthAltAt abbrevs k t p = some m → k ≤ m ∧ m < k + abbrevs.length := by
  intro abbrevs
  induction abbrevs with
  | nil => intro k t p m h; exact absurd h (by simp [monthAltAt])
  | cons a rest ih =>
    intro k t p m h
    unfold monthAltAt at h
    split at h
    · injection h with h; simp only [List.length_cons]; omega
    · have := ih (k + 1) t p m h
      simp only [List.length_cons]
      omega

/-- The month alternation only produces months 1..12. -/
theorem monthAtPos_bounds (t : List Char) (p : Nat) (m : Nat)
    (h : monthAtPos t p = some m) : 1 ≤ m ∧ m ≤ 12 := by
  have h1 := monthAltAt_bounds monthAbbrevs 1 t p m h
  have h2 : monthAbbrevs.length = 12 := rfl
  omega

/-- `monthSearch` only produces months 1..12. -/
theorem monthSearch_bounds (t : List Char) (m : Nat)
    (h : monthSearch t = some m) : 1 ≤ m ∧ m ≤ 12 := by
  obtain ⟨p, hp⟩ := scanPos_some _ _ _ _ h
  exact monthAtPos_bounds t p m hp

/-- A parsed date fragment has a month in 1..12. -/
theorem parse_date_fragment_month (s : String) (ym : YM)
    (h : parse_date_fragment s = some ym) : 1 ≤ ym.month ∧ ym.month ≤ 12 := by
  unfold parse_date_fragment at h
  set t := lowerChars (stripChars s.data) with ht
  by_cases he : t.isEmpty
  · simp [he] at h
  · simp only [he, if_false] at h
    cases hy : yearSearch t with
    | none => rw [hy] at h; exact absurd h (by simp)
    | some y =>
      rw [hy] at h
      injection h with h
      cases hm : monthSearch t with
      | none => rw [hm] at h; simp [← h, Option.getD]
      | some m =>
        rw [hm] at h
        have := monthSearch_bounds t m hm
        simp only [← h, Option.getD]
        exact this

/-- The end-after-start test forces a positive month count when both months
are calendar months (1..12). -/
theorem months_pos_of_ymLt (st ed : YM) (hs1 : 1 ≤ st.month) (hs2 : st.month ≤ 12)
    (he1 : 1 ≤ ed.month) (he2 : ed.month ≤ 12) (hlt : ymLt st ed = true) :
    0 < ((ed.year : Int) - st.year) * 12 + ((ed.month : Int) - st.month) := by
  simp only [ymLt, Bool.or_eq_true, Bool.and_eq_true, decide_eq_true_eq, beq_iff_eq] at hlt
  rcases hlt with h | ⟨h, h'⟩ <;> omega

/-- The `months > 0` guard of the loop body is redundant for calendar
months. -/
theorem entry_core_eq (st ed : YM) (hs1 : 1 ≤ st.month) (hs2 : st.month ≤ 12)
    (he1 : 1 ≤ ed.month) (he2 : ed.month ≤ 12) :
    (if ymLt st ed then
      (let months : Int := ((ed.year : Int) - st.year) * 12 + ((ed.month : Int) - st.month)
       if months > 0 then months else 0)
     else 0) =
    (if ymLt st ed then ((ed.year : Int) - st.year) * 12 + ((ed.month : Int) - st.month)
     else 0) := by
  cases hlt : ymLt st ed
  · simp [hlt]
  · simp only [hlt, if_true]
    exact if_pos (months_pos_of_ymLt st ed hs1 hs2 he1 he2 hlt)

/-- The loop body of `_calculate_experience_years` computes, per entry,
exactly what the claim's formula says. -/
theorem expEntryMonths_eq_spec (now : YM) (e : ExperienceEntry)
    (h1 : 1 ≤ now.month) (h2 : now.month ≤ 12) :
    expEntryMonths now e = expMonthsSpec now e := by
  by_cases hd : e.date_range = ""
  · have hl : expEntryMonths now e = 0 := by
      unfold expEntryMonths
      rw [if_neg (by simp [hd])]
    rw [hl]
    unfold expMonthsSpec
    rw [hd]
    rfl
  · unfold expEntryMonths expMonthsSpec
    rw [if_pos hd]
    cases hs : parse_date_fragment ((pySplitDash e.date_range).headD "") with
    | none => simp only [hs]
    | some st =>
      simp only [hs]
      have hstm := parse_date_fragment_month _ _ hs
      have hedm : 1 ≤ ((if (pySplitDash e.date_range).length > 1 then
            parse_date_fragment ((pySplitDash e.date_range).getD 1 "") else none).getD now).month ∧
          ((if (pySplitDash e.date_range).length > 1 then
            parse_date_fragment ((pySplitDash e.date_range).getD 1 "") else none).getD now).month ≤ 12 := by
        by_cases hl : (pySplitDash e.date_range).length > 1
        · rw [if_pos hl]
          cases hp : parse_date_fragment ((pySplitDash e.date_range).getD 1 "") with
          | none => simpa using ⟨h1, h2⟩
          | some ed => simpa using parse_date_fragment_month _ _ hp
        · rw [if_neg hl]
          simpa using ⟨h1, h2⟩
      exact entry_core_eq st _ hstm.1 hstm.2 hedm.1 hedm.2

/-- Folding `+ f e` over a list is adding the sum of the per-entry values. -/
theorem foldl_add_map_sum (f : ExperienceEntry → Int) :
    ∀ (l : List ExperienceEntry) (init : Int),
      l.foldl (fun tm e => tm + f e) init = init + (l.map f).sum := by
  intro l
  induction l with
  | nil => intro init; simp
  | cons a t ih => intro init; simp [ih, add_assoc]

/-- C1: on the two entries `2018-2020` and `2020-Present` with a fixed clock
at January 2024, `_calculate_experience_years` returns 6; in general (for any
calendar clock month) it sums `(end.year-start.year)*12 +
(end.month-start.month)` months over the entries whose both ends parse with
end > start (an unparseable or missing end defaulting to now), divides the
total by 12 with integer (floor) division, and clamps the result into
[0, 60]. -/
theorem calculate_experience_years_claim :
    calculate_experience_years ⟨2024, 1⟩
      [⟨"", "", "2018-2020"⟩, ⟨"", "", "2020-Present"⟩] = 6 ∧
    ∀ (now : YM) (exps : List ExperienceEntry), 1 ≤ now.month → now.month ≤ 12 →
      calculate_experience_years now exps = experienceYearsSpec now exps := by
  constructor
  · decide
  · intro now exps h1 h2
    unfold calculate_experience_years experienceYearsSpec
    by_cases he : exps.isEmpty
    · have hnil : exps = [] := List.isEmpty_iff.mp he
      subst hnil
      rfl
    · simp only [he, if_false]
      rw [foldl_add_map_sum]
      rw [show expEntryMonths now = expMonthsSpec now from
        funext (fun e => expEntryMonths_eq_spec now e h1 h2)]
      simp

/-- Witness for C1's general conjunct at a concrete clock and entry list. -/
theorem calculate_experience_years_claim_witness :
    calculate_experience_years ⟨2024, 6⟩ [⟨"Dev", "Corp", "Jan 2020 - Mar 2021"⟩] =
      experienceYearsSpec ⟨2024, 6⟩ [⟨"Dev", "Corp", "Jan 2020 - Mar 2021"⟩] :=
  calculate_experience_years_claim.2 ⟨2024, 6⟩ _ (by decide) (by decide)

/-- `dropWhile` is idempotent. -/
theorem dropWhile_idem (p : Char → Bool) (l : List Char) :
    (l.dropWhile p).dropWhile p = l.dropWhile p := by
  induction l with
  | nil => rfl
  | cons c r ih =>
    by_cases h : p c
    · simpa [List.dropWhile_cons, h] using ih
    · simp [List.dropWhile_cons, h]

/-- Unfolding equation of `dropTrailWs` on a cons cell. -/
theorem dropTrailWs_cons (c : Char) (r : List Char) :
    dropTrailWs (c :: r) =
      (if (dropTrailWs r).isEmpty && isPyWs c then [] else c :: dropTrailWs r) := rfl

/-- `dropTrailWs` is idempotent. -/
theorem dropTrailWs_idem (l : List Char) : dropTrailWs (dropTrailWs l) = dropTrailWs l := by
  induction l with
  | nil => rfl
  | cons c r ih =>
    rw [dropTrailWs_cons]
    by_cases h : (dropTrailWs r).isEmpty && isPyWs c
    · rw [if_pos h]; rfl
    · rw [if_neg h, dropTrailWs_cons, ih, if_neg h]

/-- A list whose trailing-whitespace strip is empty is all whitespace. -/
theorem dropTrailWs_eq_nil_all (l : List Char) (h : dropTrailWs l = []) :
    l.all isPyWs = true := by
  induction l with
  | nil => rfl
  | cons c r ih =>
    rw [dropTrailWs_cons] at h
    by_cases hc : (dropTrailWs r).isEmpty && isPyWs c
    · obtain ⟨h1, h2⟩ := Bool.and_eq_true_iff.mp hc
      simp only [List.all_cons, h2, Bool.true_and]
      exact ih (List.isEmpty_iff.mp h1)
    · rw [if_neg hc] at h; cases h

/-- Leading and trailing whitespace removal commute. -/
theorem lead_trail_comm (l : List Char) :
    dropLeadWs (dropTrailWs l) = dropTrailWs (dropLeadWs l) := by
  induction l with
  | nil => rfl
  | cons c r ih =>
    by_cases hc : isPyWs c
    · by_cases hr : dropTrailWs r = []
      · have hcond : ((dropTrailWs r).isEmpty && isPyWs c) = true := by
          simp [hr, hc]
        rw [dropTrailWs_cons, if_pos hcond]
        have hR : dropLeadWs (c :: r) = dropLeadWs r := by
          simp [dropLeadWs, List.dropWhile_cons, hc]
        rw [hR]
        have hall := dropTrailWs_eq_nil_all r hr
        have hnil : dropLeadWs r = [] := by
          unfold dropLeadWs
          exact List.dropWhile_eq_nil_iff.mpr (fun x hx => List.all_eq_true.mp hall x hx)
        rw [hnil]
        rfl
      · have hcond : ¬(((dropTrailWs r).isEmpty && isPyWs c) = true) := by
          simp [List.isEmpty_iff, hr]
        rw [dropTrailWs_cons, if_neg hcond]
        have hL : dropLeadWs (c :: dropTrailWs r) = dropLeadWs (dropTrailWs r) := by
          simp [dropLeadWs, List.dropWhile_cons, hc]
        have hR : dropLeadWs (c :: r) = dropLeadWs r := by
          simp [dropLeadWs, List.dropWhile_cons, hc]
        rw [hL, hR, ih]
    · have hcond : ¬(((dropTrailWs r).isEmpty && isPyWs c) = true) := by
        simp [hc]
      rw [dropTrailWs_cons, if_neg hcond]
      have hL : dropLeadWs (c :: dropTrailWs r) = c :: dropTrailWs r := by
        simp [dropLeadWs, List.dropWhile_cons, hc]
      have hR : dropLeadWs (c :: r) = c :: r := by
        simp [dropLeadWs, List.dropWhile_cons, hc]
      rw [hL, hR, dropTrailWs_cons, if_neg hcond]

/-- Python `str.strip` is idempotent (character-list level). -/
theorem stripChars_idem (l : List Char) : stripChars (stripChars l) = stripChars l := by
  unfold stripChars
  rw [lead_trail_comm (dropLeadWs l)]
  rw [show dropLeadWs (dropLeadWs l) = dropLeadWs l from dropWhile_idem isPyWs l]
  rw [dropTrailWs_idem]

/-- Python `str.strip` is idempotent. -/
theorem pyStrip_idem (s : String) : pyStrip (pyStrip s) = pyStrip s := by
  show (⟨stripChars (stripChars s.data)⟩ : String) = ⟨stripChars s.data⟩
  rw [stripChars_idem]

/-- Everything the amended C2 needs, at the string level. -/
theorem normalize_phone_str_props (s0 : String) :
    (∀ c ∈ (normalize_phone_str s0).data, c.isDigit = true ∨ c = '+') ∧
    (normalize_phone_str s0).data.count '+' ≤ 1 ∧
    (normalize_phone_str s0 = "" ∨
      7 ≤ ((normalize_phone_str s0).data.filter Char.isDigit).length) := by
  simp only [normalize_phone_str]
  set d0 := (pyStrip s0).data.filter phoneKeepChar with hd0
  have hmem0 : ∀ c ∈ d0, c.isDigit = true ∨ c = '+' := by
    intro c hcm
    have h2 := (List.mem_filter.mp hcm).2
    have h3 : (c.isDigit || c == '+') = true := h2
    rw [Bool.or_eq_true] at h3
    rcases h3 with h | h
    · exact Or.inl h
    · exact Or.inr (by simpa using h)
  by_cases hc : d0.count '+' > 1
  · rw [if_pos hc]
    set d1 := d0.filter (fun c => c != '+') with hd1
    have hcnt : d1.count '+' = 0 := by
      rw [List.count_eq_zero]
      intro hmem
      have := (List.mem_filter.mp hmem).2
      simp at this
    by_cases h7 : (d1.filter Char.isDigit).length ≥ 7
    · rw [if_pos h7]
      refine ⟨?_, ?_, Or.inr ?_⟩
      · intro c hcm
        exact hmem0 c (List.mem_filter.mp hcm).1
      · show d1.count '+' ≤ 1
        omega
      · show 7 ≤ (d1.filter Char.isDigit).length
        exact h7
    · rw [if_neg h7]
      refine ⟨?_, ?_, Or.inl rfl⟩
      · intro c hcm
        cases hcm
      · show List.count '+' ([] : List Char) ≤ 1
        decide
  · rw [if_neg hc]
    by_cases h7 : (d0.filter Char.isDigit).length ≥ 7
    · rw [if_pos h7]
      refine ⟨hmem0, ?_, Or.inr ?_⟩
      · show d0.count '+' ≤ 1
        omega
      · show 7 ≤ (d0.filter Char.isDigit).length
        exact h7
    · rw [if_neg h7]
      refine ⟨?_, ?_, Or.inl rfl⟩
      · intro c hcm
        cases hcm
      · show List.count '+' ([] : List Char) ≤ 1
        decide

/-- C2 counterexample: `_normalize_phone` keeps a single `+` wherever it
occurs; on `"123+4567"` it returns `"123+4567"`, which has an interior `+`
and so is not of the claimed "only digits plus at most one leading `+`"
shape. -/
theorem normalize_phone_counterexample :
    normalize_phone (.pstr "123+4567") = "123+4567" ∧
    phoneClaimShape "123+4567" = false :=
  ⟨by decide, by decide⟩

/-- C2 (amended): for every input, the string `_normalize_phone` returns
contains only digit characters plus at most one `+` (which need not be
leading; when two or more `+` survive the character filter they are all
removed), and is either empty or contains at least 7 digits — an input
yielding fewer than 7 digits produces the empty string. -/
theorem normalize_phone_amended :
    ∀ v : PyVal,
      (∀ c ∈ (normalize_phone v).data, c.isDigit = true ∨ c = '+') ∧
      (normalize_phone v).data.count '+' ≤ 1 ∧
      (normalize_phone v = "" ∨
        7 ≤ ((normalize_phone v).data.filter Char.isDigit).length) := by
  intro v
  exact normalize_phone_str_props _

/-- Witness for C2's amended membership hypothesis at a concrete input. -/
theorem normalize_phone_amended_witness :
    '1' ∈ (normalize_phone (.pstr "+1 (415) 555-2671")).data ∧
    ('1'.isDigit = true ∨ '1' = '+') ∧
    (normalize_phone (.pstr "+1 (415) 555-2671")).data.count '+' ≤ 1 :=
  ⟨by decide,
   (normalize_phone_amended (.pstr "+1 (415) 555-2671")).1 '1' (by decide),
   (normalize_phone_amended (.pstr "+1 (415) 555-2671")).2.1⟩

/-- C6: `_validate_email` returns either `""` or a string satisfying the
email regex, and it is idempotent. -/
theorem validate_email_claim :
    ∀ v : PyVal,
      (validate_email v = "" ∨ emailRegexMatch (validate_email v) = true) ∧
      validate_email (.pstr (validate_email v)) = validate_email v := by
  have hempty : validate_email (.pstr "") = "" := by decide
  intro v
  cases v with
  | pstr s =>
    by_cases h : emailRegexMatch (pyStrip s) = true
    · have hv : validate_email (.pstr s) = pyStrip s := by
        simp only [validate_email]
        rw [if_pos h]
      rw [hv]
      refine ⟨Or.inr h, ?_⟩
      simp only [validate_email]
      rw [pyStrip_idem, if_pos h]
    · have hv : validate_email (.pstr s) = "" := by
        simp only [validate_email]
        rw [if_neg h]
      rw [hv]
      exact ⟨Or.inl rfl, hempty⟩
  | pint n => exact ⟨Or.inl rfl, hempty⟩
  | pbool b => exact ⟨Or.inl rfl, hempty⟩
  | pfloatFin t => exact ⟨Or.inl rfl, hempty⟩
  | pfloatNaN => exact ⟨Or.inl rfl, hempty⟩
  | pnone => exact ⟨Or.inl rfl, hempty⟩
  | plist xs => exact ⟨Or.inl rfl, hempty⟩
  | pdict es => exact ⟨Or.inl rfl, hempty⟩
  | pobj => exact ⟨Or.inl rfl, hempty⟩

/-- C7: `_clamp_experience_years` always returns an integer in [0, 60]; on
strings it clamps the first signed-integer substring (0 when none), and any
unparseable input degrades to 0 and is clamped. -/
theorem clamp_experience_years_claim :
    ∀ v : PyVal,
      0 ≤ clamp_experience_years v 0 60 ∧
      clamp_experience_years v 0 60 ≤ 60 ∧
      (∀ s : String, clamp_experience_years (.pstr s) 0 60 =
        max 0 (min 60 ((firstSignedInt s).getD 0))) ∧
      clamp_experience_years (.pstr "worked for years") 0 60 = 0 ∧
      clamp_experience_years (.pstr "25 years, then -3") 0 60 = 25 ∧
      clamp_experience_years (.pstr "I have 99 years") 0 60 = 60 ∧
      clamp_experience_years (.pint (-5)) 0 60 = 0 ∧
      clamp_experience_years .pnone 0 60 = 0 := by
  intro v
  refine ⟨?_, ?_, ?_, by decide, by decide, by decide, by decide, by decide⟩
  · exact le_max_left _ _
  · exact max_le (by norm_num) (min_le_left _ _)
  · intro s
    cases h : firstSignedInt s <;> simp [clamp_experience_years, h]

/-- Membership in a reversed list is unchanged (Boolean form). -/
theorem contains_reverse (l : List String) (a : String) :
    l.reverse.contains a = l.contains a := by
  induction l with
  | nil => rfl
  | cons x r ih => simp [List.contains, Bool.or_comm]

/-- The interleaved loop of the app-level `_normalize_skills` equals the
claim's trim/filter/case/dedup pipeline, for any partial output `out` (the
loop's `seen` set is exactly the lowercased keys of `out`). -/
theorem appSkillsLoop_eq_claimed :
    ∀ (xs : List String) (out : List String),
      appSkillsLoop xs ((out.map pyLower).reverse) out.reverse =
        (((xs.map pyStrip).filter claimedSkillKeep).map claimedSkillCase).foldl
          (fun acc y => if (acc.map pyLower).contains (pyLower y) then acc else acc ++ [y])
          out := by
  intro xs
  induction xs with
  | nil =>
    intro out
    simp [appSkillsLoop]
  | cons x rest ih =>
    intro out
    simp only [List.map_cons]
    by_cases h1 : pyStrip x = ""
    · have hk : claimedSkillKeep (pyStrip x) = false := by
        simp [claimedSkillKeep, h1]
      rw [List.filter_cons_of_neg (by simp [hk])]
      simp only [appSkillsLoop]
      rw [if_pos h1]
      exact ih out
    · by_cases h2 : isNumericToken (pyStrip x).data = true
      · have hk : claimedSkillKeep (pyStrip x) = false := by
          simp [claimedSkillKeep, h2]
        rw [List.filter_cons_of_neg (by simp [hk])]
        simp only [appSkillsLoop]
        rw [if_neg h1, if_pos h2]
        exact ih out
      · by_cases h3 : skillStopwords.contains (pyLower (pyStrip x)) = true
        · have h3m : pyLower (pyStrip x) ∈ skillStopwords := List.elem_iff.mp h3
          have hk : claimedSkillKeep (pyStrip x) = false := by
            simp [claimedSkillKeep, h3m]
          rw [List.filter_cons_of_neg (by simp [hk])]
          simp only [appSkillsLoop]
          rw [if_neg h1, if_neg (by simp [h2]), pyStrip_idem, if_pos h3]
          exact ih out
        · have h3m : pyLower (pyStrip x) ∉ skillStopwords :=
            fun hm => h3 (List.elem_iff.mpr hm)
          have hk : claimedSkillKeep (pyStrip x) = true := by
            simp [claimedSkillKeep, h1, h2]
            exact h3m
          rw [List.filter_cons_of_pos (by simp [hk]), List.map_cons, List.foldl_cons]
          simp only [appSkillsLoop]
          rw [if_neg h1, if_neg (by simp [h2]), pyStrip_idem, if_neg h3]
          have hcase : (if preserveUpper.contains (pyUpper (pyStrip x)) = true then pyStrip x
              else pyTitle (pyStrip x)) = claimedSkillCase (pyStrip x) := rfl
          rw [hcase]
          by_cases h4 :
              ((out.map pyLower).reverse).contains (pyLower (claimedSkillCase (pyStrip x))) = true
          · have h4' : (out.map pyLower).contains (pyLower (claimedSkillCase (pyStrip x))) = true := by
              rw [← contains_reverse]; exact h4
            rw [if_pos h4, if_pos h4']
            exact ih out
          · have h4' : ¬((out.map pyLower).contains (pyLower (claimedSkillCase (pyStrip x))) = true) := by
              rw [← contains_reverse]; exact h4
            rw [if_neg h4, if_neg h4']
            have e1 : pyLower (claimedSkillCase (pyStrip x)) :: (out.map pyLower).reverse =
                (((out ++ [claimedSkillCase (pyStrip x)]).map pyLower).reverse) := by
              simp
            have e2 : claimedSkillCase (pyStrip x) :: out.reverse =
                ((out ++ [claimedSkillCase (pyStrip x)]).reverse) := by
              simp
            rw [e1, e2]
            exact ih (out ++ [claimedSkillCase (pyStrip x)])

/-- C4 counterexample: the parser-level `_normalize_skills`
(resume_parser.py), one of the two functions the claim describes, keeps
purely numeric tokens, while the claimed pipeline drops them. -/
theorem parser_normalize_skills_counterexample :
    parser_normalize_skills ["123"] = ["123"] ∧
    normalize_skills_claimed ["123"] = [] ∧
    parser_normalize_skills ["123"] ≠ normalize_skills_claimed ["123"] :=
  ⟨by decide, by decide, by decide⟩

/-- C4 (amended): the app-level `_normalize_skills` satisfies the claimed
pipeline exactly (trim; drop empty, purely numeric and stop-word tokens;
title-case unless the upper-cased form is in the preserve set;
case-insensitive first-occurrence dedup in encounter order), including both
concrete examples; the parser-level copy deviates: it keeps numeric tokens
and first maps the aliases js→JavaScript / py→Python (then title-cases
them). -/
theorem normalize_skills_amended :
    (∀ xs : List String,
      app_normalize_skills (.plist (xs.map PyVal.pstr)) = normalize_skills_claimed xs) ∧
    app_normalize_skills (.plist [.pstr "AWS", .pstr "aws"]) = ["AWS"] ∧
    app_normalize_skills (.plist [.pstr "Python", .pstr "python", .pstr "PYTHON "]) = ["Python"] ∧
    parser_normalize_skills ["js"] = ["Javascript"] := by
  refine ⟨?_, by decide, by decide, by decide⟩
  intro xs
  have hparts : (xs.map PyVal.pstr).map
      (fun v => match v with | PyVal.pstr s => s | w => pyStr w) = xs := by
    induction xs with
    | nil => rfl
    | cons a t ih => simp only [List.map_cons, ih]
  show appSkillsLoop ((xs.map PyVal.pstr).map
      (fun v => match v with | PyVal.pstr s => s | w => pyStr w)) [] [] = _
  rw [hparts]
  exact appSkillsLoop_eq_claimed xs []

/-- One name of `_find_section` matches the minimal-index formulation. -/
theorem find_section_one_eq (t name : List Char) :
    find_section_one t name = find_section_words_one t name := by
  unfold find_section_one find_section_words_one
  simp only [scanPos_eq_range', findSome?_guard_eq_find?, ← List.range_eq_range']

/-- The name loop of `_find_section` is `findSome?` over the names. -/
theorem findSectionLoop_eq (tl : List Char) :
    ∀ ns : List String,
      findSectionLoop tl ns = ((ns.findSome? (fun n =>
        (find_section_words_one tl (lowerChars n.data)).map
          (fun b => (⟨stripChars b⟩ : String)))).getD "") := by
  intro ns
  induction ns with
  | nil => rfl
  | cons n rest ih =>
    rw [List.findSome?_cons]
    show (match find_section_one tl (lowerChars n.data) with
      | some body => (⟨stripChars body⟩ : String)
      | none => findSectionLoop tl rest) = _
    rw [find_section_one_eq]
    cases find_section_words_one tl (lowerChars n.data) with
    | some body => rfl
    | none => exact ih

/-- C3 counterexample: the boundary lookahead runs on the lowercased text
with `re.IGNORECASE`, so an entirely lowercase line such as `next steps:`
ends the section, while the claim ("a capitalized short line ending with a
colon") says the body should run to the end of the text here. -/
theorem find_section_counterexample :
    find_section "skills:\npython\nnext steps:\nmore" ["skills"] = "python" ∧
    find_section_claimed "skills:\npython\nnext steps:\nmore" ["skills"]
      = "python\nnext steps:\nmore" ∧
    find_section "skills:\npython\nnext steps:\nmore" ["skills"]
      ≠ find_section_claimed "skills:\npython\nnext steps:\nmore" ["skills"] :=
  ⟨by decide, by decide, by decide⟩

/-- C3 (amended): `_find_section` returns the stripped body (taken from the
lowercased text) of the first position where a heading name is followed by a
colon/whitespace run containing a newline, the body running up to the
earliest lookahead boundary — a newline followed by a letter of either case
and then letters/whitespace (possibly spanning lines) up to a colon — or to
the end of text; it returns `""` when no heading pattern matches.  The
statement equates the scan-based transcription with the explicit
minimal-index/first-name formulation, and pins the concrete case-insensitive
boundary and no-match behaviours. -/
theorem find_section_amended :
    (∀ (text : String) (names : List String),
      find_section text names = find_section_words text names) ∧
    find_section "skills:\npython\nnext steps:\nmore" ["skills"] = "python" ∧
    find_section "hello world" ["skills"] = "" := by
  refine ⟨?_, by decide, by decide⟩
  intro text names
  unfold find_section find_section_words
  exact findSectionLoop_eq (lowerChars text.data) names

/-- C5: the merged record's email and phone always come from the resume-side
(secondary) record, regardless of the profile-side values; concretely, an
empty profile email merged against resume email `a@b.com` yields
`a@b.com`. -/
theorem merge_contact_fields_claim :
    (∀ (ld : LinkedInData) (rd : ResumeData),
      (merge_with_resume_data ld rd).email = rd.email ∧
      (merge_with_resume_data ld rd).phone = rd.phone) ∧
    (merge_with_resume_data
      { name := "Jane Doe", email := "", phone := "",
        profile_url := "https://linkedin.com/in/jane", location := "", title := "",
        company := "", summary := "", skills := [], experience := [], education := [] }
      { name := "Jane M Doe", email := "a@b.com", phone := "+12345678",
        resume_path := "r.pdf", location := "", current_position := "",
        current_company := "", summary := "", skills := [], experience := [],
        education := [], experience_years := 3 }).email = "a@b.com" :=
  ⟨fun _ _ => ⟨rfl, rfl⟩, rfl⟩

/-- C8: running the record-building core (`_parse_text` then `_post_process`)
on the empty string yields the record whose string fields are all `""`,
whose sequence fields are all empty and whose `experience_years` is 0 — for
any clock and any optional-tagger configuration whose tagger returns no
tokens on empty text (including the tagger-absent configuration).  Every
function involved is total, so no exception can escape. -/
theorem parse_empty_claim :
    ∀ (nlp : Option (String → List String)) (now : YM),
      (∀ f, nlp = some f → f "" = []) →
      post_process (parse_text nlp now "") = emptyParsedData := by
  intro nlp now h
  have hs : extract_skills nlp "" = [] := by
    cases nlp with
    | none => rfl
    | some f =>
      have hf := h f rfl
      simp only [extract_skills]
      rw [hf]
      rfl
  unfold post_process parse_text
  rw [hs]
  rfl

/-- Witness for C8 at the tagger-absent configuration and a concrete
clock. -/
theorem parse_empty_claim_witness :
    (∀ f : String → List String,
      (none : Option (String → List String)) = some f → f "" = []) ∧
    post_process (parse_text none ⟨2024, 1⟩ "") = emptyParsedData :=
  ⟨fun _ hf => Option.noConfusion hf,
   parse_empty_claim none ⟨2024, 1⟩ (fun _ hf => Option.noConfusion hf)⟩

/-- Every element is bounded by the running maximum. -/
theorem mem_le_foldr_max (l : List Nat) (x : Nat) (hx : x ∈ l) : x ≤ l.foldr max 0 := by
  induction l with
  | nil => cases hx
  | cons a t ih =>
    rcases List.mem_cons.mp hx with h | h
    · subst h; exact le_max_left _ _
    · exact le_trans (ih h) (le_max_right _ _)

/-- Allocated ids are strictly below the fresh id. -/
theorem lt_heapFreshId (h : Heap) (x : Nat) (hx : x ∈ heapDom h) : x < heapFreshId h := by
  unfold heapDom at hx
  unfold heapFreshId
  have := mem_le_foldr_max (h.map (fun e => e.1)) x hx
  omega

/-- Lookup in an extended heap is unchanged on the old domain. -/
theorem heapLookup_append_of_mem (h : Heap) (t : Heap) (r : Nat) (hr : r ∈ heapDom h) :
    heapLookup (h ++ t) r = heapLookup h r := by
  unfold heapLookup
  induction h with
  | nil => cases hr
  | cons e rest ih =>
    by_cases he : (e.1 == r) = true
    · rw [List.cons_append]
      simp only [List.find?_cons, he]
    · have he' : (e.1 == r) = false := by simpa using he
      have hr' : r ∈ heapDom rest := by
        rcases List.mem_cons.mp hr with h1 | h1
        · exact absurd h1.symm (by simpa using he)
        · exact h1
      rw [List.cons_append]
      simp only [List.find?_cons, he']
      exact ih hr'

/-- Lookup skips the old part entirely for a new id. -/
theorem heapLookup_append_of_not_mem (h : Heap) (t : Heap) (r : Nat) (hr : r ∉ heapDom h) :
    heapLookup (h ++ t) r = heapLookup t r := by
  unfold heapLookup
  induction h with
  | nil => rfl
  | cons e rest ih =>
    have hne : (e.1 == r) = false := by
      simp only [beq_eq_false_iff_ne, ne_eq]
      intro he
      exact hr (by simp [heapDom, he])
    rw [List.cons_append]
    simp only [List.find?_cons, hne]
    exact ih (fun hm => hr (List.mem_cons_of_mem _ hm))

/-- C9: the store-passing `merge_with_resume_data` never writes an existing
heap cell (no field of either input record is mutated — strings and ints are
immutable and the inputs' list cells keep their payloads), and the merged
record's three sequence fields are fresh cells: distinct from every
previously allocated id, in particular from the inputs' own containers, and
holding exactly the merged payloads. -/
theorem merge_alloc_frame_claim :
    ∀ (h : Heap) (ld : HLinkedInData) (rd : HResumeData),
      (∀ r, r ∈ heapDom h →
        heapLookup (merge_with_resume_data_alloc h ld rd).1 r = heapLookup h r) ∧
      ((merge_with_resume_data_alloc h ld rd).2.skillsRef ∉ heapDom h ∧
       (merge_with_resume_data_alloc h ld rd).2.expRef ∉ heapDom h ∧
       (merge_with_resume_data_alloc h ld rd).2.eduRef ∉ heapDom h) ∧
      ((ld.skillsRef ∈ heapDom h →
         (merge_with_resume_data_alloc h ld rd).2.skillsRef ≠ ld.skillsRef) ∧
       (rd.skillsRef ∈ heapDom h →
         (merge_with_resume_data_alloc h ld rd).2.skillsRef ≠ rd.skillsRef) ∧
       (ld.expRef ∈ heapDom h →
         (merge_with_resume_data_alloc h ld rd).2.expRef ≠ ld.expRef) ∧
       (rd.expRef ∈ heapDom h →
         (merge_with_resume_data_alloc h ld rd).2.expRef ≠ rd.expRef) ∧
       (ld.eduRef ∈ heapDom h →
         (merge_with_resume_data_alloc h ld rd).2.eduRef ≠ ld.eduRef) ∧
       (rd.eduRef ∈ heapDom h →
         (merge_with_resume_data_alloc h ld rd).2.eduRef ≠ rd.eduRef)) ∧
      (heapLookup (merge_with_resume_data_alloc h ld rd).1
          (merge_with_resume_data_alloc h ld rd).2.skillsRef =
        some (.skillsV
          ((heapGetSkills h ld.skillsRef ++ heapGetSkills h rd.skillsRef).eraseDups)) ∧
       heapLookup (merge_with_resume_data_alloc h ld rd).1
          (merge_with_resume_data_alloc h ld rd).2.expRef =
        some (.expV (heapGetExp h ld.expRef ++ heapGetExp h rd.expRef)) ∧
       heapLookup (merge_with_resume_data_alloc h ld rd).1
          (merge_with_resume_data_alloc h ld rd).2.eduRef =
        some (.eduV (heapGetEdu h ld.eduRef ++ heapGetEdu h rd.eduRef))) := by
  intro h ld rd
  have hf0 : heapFreshId h ∉ heapDom h := by
    intro hm
    exact absurd (lt_heapFreshId h _ hm) (lt_irrefl _)
  have hf1 : heapFreshId h + 1 ∉ heapDom h := by
    intro hm
    have := lt_heapFreshId h _ hm
    omega
  have hf2 : heapFreshId h + 2 ∉ heapDom h := by
    intro hm
    have := lt_heapFreshId h _ hm
    omega
  refine ⟨?_, ⟨hf0, hf1, hf2⟩, ⟨?_, ?_, ?_, ?_, ?_, ?_⟩, ⟨?_, ?_, ?_⟩⟩
  · intro r hr
    exact heapLookup_append_of_mem h _ r hr
  · intro hin heq
    exact hf0 (by rw [show heapFreshId h = ld.skillsRef from heq]; exact hin)
  · intro hin heq
    exact hf0 (by rw [show heapFreshId h = rd.skillsRef from heq]; exact hin)
  · intro hin heq
    exact hf1 (by rw [show heapFreshId h + 1 = ld.expRef from heq]; exact hin)
  · intro hin heq
    exact hf1 (by rw [show heapFreshId h + 1 = rd.expRef from heq]; exact hin)
  · intro hin heq
    exact hf2 (by rw [show heapFreshId h + 2 = ld.eduRef from heq]; exact hin)
  · intro hin heq
    exact hf2 (by rw [show heapFreshId h + 2 = rd.eduRef from heq]; exact hin)
  · show heapLookup (h ++ [(heapFreshId h, SeqVal.skillsV
          ((heapGetSkills h ld.skillsRef ++ heapGetSkills h rd.skillsRef).eraseDups)),
        (heapFreshId h + 1, SeqVal.expV (heapGetExp h ld.expRef ++ heapGetExp h rd.expRef)),
        (heapFreshId h + 2, SeqVal.eduV (heapGetEdu h ld.eduRef ++ heapGetEdu h rd.eduRef))]) (heapFreshId h) = some (SeqVal.skillsV
        ((heapGetSkills h ld.skillsRef ++ heapGetSkills h rd.skillsRef).eraseDups))
    rw [heapLookup_append_of_not_mem h _ _ hf0]
    unfold heapLookup
    simp [List.find?_cons]
  · show heapLookup (h ++ [(heapFreshId h, SeqVal.skillsV
          ((heapGetSkills h ld.skillsRef ++ heapGetSkills h rd.skillsRef).eraseDups)),
        (heapFreshId h + 1, SeqVal.expV (heapGetExp h ld.expRef ++ heapGetExp h rd.expRef)),
        (heapFreshId h + 2, SeqVal.eduV (heapGetEdu h ld.eduRef ++ heapGetEdu h rd.eduRef))]) (heapFreshId h + 1) = some (SeqVal.expV
        (heapGetExp h ld.expRef ++ heapGetExp h rd.expRef))
    rw [heapLookup_append_of_not_mem h _ _ hf1]
    unfold heapLookup
    simp [List.find?_cons]
  · show heapLookup (h ++ [(heapFreshId h, SeqVal.skillsV
          ((heapGetSkills h ld.skillsRef ++ heapGetSkills h rd.skillsRef).eraseDups)),
        (heapFreshId h + 1, SeqVal.expV (heapGetExp h ld.expRef ++ heapGetExp h rd.expRef)),
        (heapFreshId h + 2, SeqVal.eduV (heapGetEdu h ld.eduRef ++ heapGetEdu h rd.eduRef))]) (heapFreshId h + 2) = some (SeqVal.eduV
        (heapGetEdu h ld.eduRef ++ heapGetEdu h rd.eduRef))
    rw [heapLookup_append_of_not_mem h _ _ hf2]
    unfold heapLookup
    simp [List.find?_cons]

/-- Witness for C9 at a concrete heap and records. -/
theorem merge_alloc_frame_claim_witness :
    0 ∈ heapDom [(0, SeqVal.skillsV ["Python"]), (3, SeqVal.skillsV ["SQL"])] ∧
    heapLookup (merge_with_resume_data_alloc
        [(0, SeqVal.skillsV ["Python"]), (3, SeqVal.skillsV ["SQL"])]
        ⟨"L", "", "", "u", "", "", "", "", 0, 1, 2⟩
        ⟨"R", "a@b.com", "+1234567", "r.pdf", "", "", "", "", 3, 4, 5, 2⟩).1 0 =
      heapLookup [(0, SeqVal.skillsV ["Python"]), (3, SeqVal.skillsV ["SQL"])] 0 ∧
    (merge_with_resume_data_alloc
        [(0, SeqVal.skillsV ["Python"]), (3, SeqVal.skillsV ["SQL"])]
        ⟨"L", "", "", "u", "", "", "", "", 0, 1, 2⟩
        ⟨"R", "a@b.com", "+1234567", "r.pdf", "", "", "", "", 3, 4, 5, 2⟩).2.skillsRef ≠ 0 :=
  ⟨by decide,
   (merge_alloc_frame_claim _ _ _).1 0 (by decide),
   (merge_alloc_frame_claim _ _ _).2.2.1.1 (by decide)⟩

/-- Reading a key just written gives the new value. -/
theorem dictGet?_dictSet_same (es : List (String × PyVal)) (k : String) (v : PyVal) :
    dictGet? (dictSet es k v) k = some v := by
  induction es with
  | nil => simp [dictSet, dictGet?, List.find?_cons]
  | cons e rest ih =>
    by_cases he : (e.1 == k) = true
    · simp [dictSet, he, dictGet?, List.find?_cons]
    · have he' : (e.1 == k) = false := by simpa using he
      simp only [dictSet, he', Bool.false_eq_true, if_false, dictGet?, List.find?_cons]
      simpa [dictGet?] using ih

/-- Writing one key leaves every other key's binding unchanged. -/
theorem dictGet?_dictSet_other (es : List (String × PyVal)) (k k' : String) (v : PyVal)
    (hne : k' ≠ k) :
    dictGet? (dictSet es k v) k' = dictGet? es k' := by
  have hkk : (k == k') = false := by
    simp only [beq_eq_false_iff_ne, ne_eq]
    exact fun h => hne h.symm
  induction es with
  | nil => simp [dictSet, dictGet?, List.find?_cons, hkk]
  | cons e rest ih =>
    by_cases he : (e.1 == k) = true
    · have he1 : e.1 = k := by simpa using he
      simp only [dictSet, he1, beq_self_eq_true, if_true, dictGet?, List.find?_cons, hkk]
    · have he' : (e.1 == k) = false := by simpa using he
      by_cases hek : (e.1 == k') = true
      · simp only [dictSet, he', Bool.false_eq_true, if_false, dictGet?, List.find?_cons, hek]
      · have hek' : (e.1 == k') = false := by simpa using hek
        simp only [dictSet, he', Bool.false_eq_true, if_false, dictGet?, List.find?_cons, hek']
        simpa [dictGet?] using ih

/-- The first four writes of `normalize_candidate_data` leave any fifth key
unchanged. -/
theorem dictGet?_four_sets_other (es : List (String × PyVal)) (k : String)
    (ve vp vs vy : PyVal)
    (h1 : k ≠ "email") (h2 : k ≠ "phone") (h3 : k ≠ "skills")
    (h4 : k ≠ "experience_years") :
    dictGet? (dictSet (dictSet (dictSet (dictSet es "email" ve) "phone" vp) "skills" vs)
      "experience_years" vy) k = dictGet? es k := by
  rw [dictGet?_dictSet_other _ _ _ _ h4, dictGet?_dictSet_other _ _ _ _ h3,
      dictGet?_dictSet_other _ _ _ _ h2, dictGet?_dictSet_other _ _ _ _ h1]

/-- The first four writes do not touch the name key, so the name test reads
the original value. -/
theorem dictGetD_four_sets_name (es : List (String × PyVal)) (ve vp vs vy : PyVal) :
    dictGetD (dictSet (dictSet (dictSet (dictSet es "email" ve) "phone" vp) "skills" vs)
      "experience_years" vy) "name" .pnone = dictGetD es "name" .pnone := by
  unfold dictGetD
  rw [dictGet?_four_sets_other es "name" ve vp vs vy (by decide) (by decide) (by decide)
    (by decide)]

/-- C10: `normalize_candidate_data` returns the empty dict on every non-dict
input; on a dict it returns the dict with exactly the email, phone, skills
and experience-years entries rewritten through the validators (and the name
trimmed when it is a string, left alone otherwise), every other key's
binding unchanged. -/
theorem normalize_candidate_data_claim :
    (normalize_candidate_data .pnone = .pdict [] ∧
     normalize_candidate_data .pobj = .pdict [] ∧
     normalize_candidate_data .pfloatNaN = .pdict [] ∧
     (∀ s, normalize_candidate_data (.pstr s) = .pdict []) ∧
     (∀ n : Int, normalize_candidate_data (.pint n) = .pdict []) ∧
     (∀ b, normalize_candidate_data (.pbool b) = .pdict []) ∧
     (∀ t : Int, normalize_candidate_data (.pfloatFin t) = .pdict []) ∧
     (∀ xs, normalize_candidate_data (.plist xs) = .pdict [])) ∧
    (∀ es, normalize_candidate_data (.pdict es) = .pdict (normalize_candidate_entries es)) ∧
    (∀ es k, k ∉ (["email", "phone", "skills", "experience_years", "name"] : List String) →
      dictGet? (normalize_candidate_entries es) k = dictGet? es k) ∧
    (∀ es, dictGet? (normalize_candidate_entries es) "email" =
      some (.pstr (validate_email (dictGetD es "email" .pnone)))) ∧
    (∀ es, dictGet? (normalize_candidate_entries es) "phone" =
      some (.pstr (normalize_phone (dictGetD es "phone" .pnone)))) ∧
    (∀ es, dictGet? (normalize_candidate_entries es) "skills" =
      some (.plist ((app_normalize_skills (dictGetD es "skills" (.plist []))).map .pstr))) ∧
    (∀ es, dictGet? (normalize_candidate_entries es) "experience_years" =
      some (.pint (clamp_experience_years (dictGetD es "experience_years" (.pint 0)) 0 60))) ∧
    (∀ es s, dictGetD es "name" .pnone = .pstr s →
      dictGet? (normalize_candidate_entries es) "name" = some (.pstr (pyStrip s))) ∧
    (∀ es, (∀ s, dictGetD es "name" .pnone ≠ .pstr s) →
      dictGet? (normalize_candidate_entries es) "name" = dictGet? es "name") := by
  refine ⟨⟨rfl, rfl, rfl, fun _ => rfl, fun _ => rfl, fun _ => rfl, fun _ => rfl,
    fun _ => rfl⟩, fun _ => rfl, ?_, ?_, ?_, ?_, ?_, ?_, ?_⟩
  · intro es k hk
    have h1 : k ≠ "email" := fun h => hk (by simp [h])
    have h2 : k ≠ "phone" := fun h => hk (by simp [h])
    have h3 : k ≠ "skills" := fun h => hk (by simp [h])
    have h4 : k ≠ "experience_years" := fun h => hk (by simp [h])
    have h5 : k ≠ "name" := fun h => hk (by simp [h])
    simp only [normalize_candidate_entries]
    split
    all_goals first
      | (rw [dictGet?_dictSet_other _ _ _ _ h5]
         exact dictGet?_four_sets_other es k _ _ _ _ h1 h2 h3 h4)
      | exact dictGet?_four_sets_other es k _ _ _ _ h1 h2 h3 h4
  · intro es
    simp only [normalize_candidate_entries]
    split
    all_goals first
      | (rw [dictGet?_dictSet_other _ _ _ _ (by decide)]
         rw [dictGet?_dictSet_other _ _ _ _ (by decide),
             dictGet?_dictSet_other _ _ _ _ (by decide),
             dictGet?_dictSet_other _ _ _ _ (by decide)]
         exact dictGet?_dictSet_same _ _ _)
      | (rw [dictGet?_dictSet_other _ _ _ _ (by decide),
             dictGet?_dictSet_other _ _ _ _ (by decide),
             dictGet?_dictSet_other _ _ _ _ (by decide)]
         exact dictGet?_dictSet_same _ _ _)
  · intro es
    have hv : dictGetD (dictSet es "email"
        (.pstr (validate_email (dictGetD es "email" .pnone)))) "phone" .pnone =
        dictGetD es "phone" .pnone := by
      unfold dictGetD
      rw [dictGet?_dictSet_other _ _ _ _ (by decide)]
    simp only [normalize_candidate_entries]
    split
    all_goals first
      | (rw [dictGet?_dictSet_other _ _ _ _ (by decide)]
         rw [dictGet?_dictSet_other _ _ _ _ (by decide),
             dictGet?_dictSet_other _ _ _ _ (by decide),
             dictGet?_dictSet_same, hv])
      | (rw [dictGet?_dictSet_other _ _ _ _ (by decide),
             dictGet?_dictSet_other _ _ _ _ (by decide),
             dictGet?_dictSet_same, hv])
  · intro es
    have hv : dictGetD (dictSet (dictSet es "email"
        (.pstr (validate_email (dictGetD es "email" .pnone)))) "phone"
        (.pstr (normalize_phone (dictGetD (dictSet es "email"
          (.pstr (validate_email (dictGetD es "email" .pnone)))) "phone" .pnone))))
        "skills" (.plist []) = dictGetD es "skills" (.plist []) := by
      unfold dictGetD
      rw [dictGet?_dictSet_other _ _ _ _ (by decide),
          dictGet?_dictSet_other _ _ _ _ (by decide)]
    simp only [normalize_candidate_entries]
    split
    all_goals first
      | (rw [dictGet?_dictSet_other _ _ _ _ (by decide)]
         rw [dictGet?_dictSet_other _ _ _ _ (by decide), dictGet?_dictSet_same, hv])
      | (rw [dictGet?_dictSet_other _ _ _ _ (by decide), dictGet?_dictSet_same, hv])
  · intro es
    have hv : ∀ (v2 : PyVal), dictGetD (dictSet (dictSet (dictSet es "email"
        (.pstr (validate_email (dictGetD es "email" .pnone)))) "phone" v2) "skills"
        (.plist ((app_normalize_skills (dictGetD (dictSet (dictSet es "email"
          (.pstr (validate_email (dictGetD es "email" .pnone)))) "phone" v2) "skills"
          (.plist []))).map .pstr))) "experience_years" (.pint 0) =
        dictGetD es "experience_years" (.pint 0) := by
      intro v2
      unfold dictGetD
      rw [dictGet?_dictSet_other _ _ _ _ (by decide),
          dictGet?_dictSet_other _ _ _ _ (by decide),
          dictGet?_dictSet_other _ _ _ _ (by decide)]
    simp only [normalize_candidate_entries]
    split
    all_goals first
      | (rw [dictGet?_dictSet_other _ _ _ _ (by decide)]
         rw [dictGet?_dictSet_same, hv])
      | (rw [dictGet?_dictSet_same, hv])
  · intro es s hs
    simp only [normalize_candidate_entries]
    rw [dictGetD_four_sets_name, hs]
    exact dictGet?_dictSet_same _ _ _
  · intro es hsn
    simp only [normalize_candidate_entries]
    rw [dictGetD_four_sets_name]
    cases hv : dictGetD es "name" .pnone
    case pstr s => exact absurd hv (hsn s)
    all_goals
      exact dictGet?_four_sets_other es "name" _ _ _ _ (by decide) (by decide) (by decide)
        (by decide)

/-- Witness for C10 at a concrete dict: an untouched key keeps its binding
and a string name is trimmed. -/
theorem normalize_candidate_data_claim_witness :
    ("location" ∉ (["email", "phone", "skills", "experience_years", "name"] : List String)) ∧
    dictGet? (normalize_candidate_entries
        [("location", PyVal.pstr "Austin"), ("email", PyVal.pstr "a@b.com"),
         ("name", PyVal.pstr "  Jane  ")]) "location" =
      dictGet? [("location", PyVal.pstr "Austin"), ("email", PyVal.pstr "a@b.com"),
        ("name", PyVal.pstr "  Jane  ")] "location" ∧
    dictGet? (normalize_candidate_entries
        [("location", PyVal.pstr "Austin"), ("email", PyVal.pstr "a@b.com"),
         ("name", PyVal.pstr "  Jane  ")]) "name" = some (.pstr (pyStrip "  Jane  ")) :=
  ⟨by decide,
   normalize_candidate_data_claim.2.2.1 _ "location" (by decide),
   normalize_candidate_data_claim.2.2.2.2.2.2.2.1 _ "  Jane  " rfl⟩
